import Mathlib

/-!
# RBC_C.c : value-function iteration for the basic RBC model with full depreciation

Shallow embedding of `main` of `src/RBC_C.c`.

* A C `double` is an element of a linear ordered field `α` (exact arithmetic, no rounding);
  the calibration theorems take `α = ℝ`.
* The libm functions `pow` and `log` are not part of the repository; the definitions take
  them as arguments, and the calibration theorems instantiate them with `Real.rpow` and
  `Real.log`.
* A C array is a total function from its indices (`Nat → α`, `Nat → Nat → α`); the declared
  dimensions are kept in `nGridCapital` and `nGridProductivity`.  The one-dimensional capital
  grid is built as an `Array α` so that its number of entries is part of the model.
* `for (i = 0; i < n; ++i) body` is `forLoop n body`.  The `while` loop of the main iteration
  has no bound in the source; it is `mainIteration`, which takes a number of permitted passes
  and returns `none` if the loop is still running after that many.
* `printf` and the timer have no effect on the modelled state and are left out.
-/

namespace RBC

/-! ## Loops and array cells -/

/-- The loop `for (i = 0; i < n; ++i) body(i)`: the body runs for `i = 0, 1, …, n-1` in order. -/
def forLoop {σ : Type} : Nat → (Nat → σ → σ) → σ → σ
  | 0, _, s => s
  | n + 1, body, s => body n (forLoop n body s)

/-- The assignment `m[i][j] = v` on a two-dimensional array. -/
def setCell {α : Type} (m : Nat → Nat → α) (i j : Nat) (v : α) : Nat → Nat → α :=
  fun a b => if a = i ∧ b = j then v else m a b

/-- Read `t[i][j]` from a table written as a list of rows. -/
def readTable {α : Type} [Zero α] (t : List (List α)) (i j : Nat) : α :=
  (t.getD i []).getD j 0

section Program

variable {α : Type} [LinearOrderedField α]

/-! ## 1. Calibration (lines 47-61) -/

/-- Elasticity of output w.r.t. capital (line 47). -/
def aalpha : α := 0.33333333333

/-- Discount factor (line 48). -/
def bbeta : α := 0.95

/-- Productivity values (line 52). -/
def vProductivity : List α := [0.9792, 0.9896, 1.0000, 1.0106, 1.0212]

/-- Transition matrix (lines 55-61). -/
def mTransition : List (List α) :=
  [[0.9727, 0.0273, 0.0000, 0.0000, 0.0000],
   [0.0041, 0.9806, 0.0153, 0.0000, 0.0000],
   [0.0000, 0.0082, 0.9837, 0.0082, 0.0000],
   [0.0000, 0.0000, 0.0153, 0.9806, 0.0041],
   [0.0000, 0.0000, 0.0000, 0.0273, 0.9727]]

/-- Sum of the entries of row `i` of the hard-coded transition matrix. -/
def transitionRowSum (α : Type) [LinearOrderedField α] (i : Nat) : α :=
  ((mTransition (α := α)).getD i []).sum

/-! ## 2. Steady state and capital grid (lines 67-81) -/

/-- Line 67: `pow(aalpha*bbeta, 1/(1-aalpha))`. -/
def capitalSteadyState (pow : α → α → α) : α := pow (aalpha * bbeta) (1 / (1 - aalpha))

/-- Line 68: `pow(capitalSteadyState, aalpha)`. -/
def outputSteadyState (pow : α → α → α) : α := pow (capitalSteadyState pow) aalpha

/-- Line 69. -/
def consumptionSteadyState (pow : α → α → α) : α :=
  outputSteadyState pow - capitalSteadyState pow

/-- Number of capital grid points (line 76). -/
def nGridCapital : Nat := 17820

/-- Number of productivity states (line 76). -/
def nGridProductivity : Nat := 5

/-- Lines 77-81 for a grid of `n` points around the steady-state capital `kss`: the array is
declared with `n` zero entries and entry `nCapital` is assigned `0.5*kss + 0.00001*nCapital`. -/
def gridLoop (kss : α) (n : Nat) : Array α :=
  forLoop n (fun nCapital g => g.setD nCapital (0.5 * kss + 0.00001 * (nCapital : α)))
    (Array.mkArray n 0)

/-- The capital grid of the program. -/
def vGridCapital (pow : α → α → α) : Array α := gridLoop (capitalSteadyState pow) nGridCapital

/-! ## 4. Output table (lines 85, 93-97) -/

/-- Lines 93-97 over a grid `grid` of `nK` points: `mOutput[k][p] = vProductivity[p] *
pow(grid[k], aalpha)`, starting from the zero matrix of line 85. -/
def outputLoop (pow : α → α → α) (grid : Nat → α) (nK : Nat) : Nat → Nat → α :=
  forLoop nGridProductivity (fun nProductivity m =>
    forLoop nK (fun nCapital m =>
      setCell m nCapital nProductivity
        ((vProductivity (α := α)).getD nProductivity 0 * pow (grid nCapital) aalpha)) m)
    (fun _ _ => 0)

/-- The output table of the program. -/
def mOutput (pow : α → α → α) : Nat → Nat → α :=
  outputLoop pow (fun i => (vGridCapital pow).getD i 0) nGridCapital

/-! ## 5. Main iteration (lines 101-166) -/

/-- The data the main iteration only reads: dimensions, calibration, grid, output table,
tolerance and the libm logarithm. -/
structure Params (α : Type) where
  nGridCapital : Nat
  nGridProductivity : Nat
  bbeta : α
  mTransition : Nat → Nat → α
  vGridCapital : Nat → α
  mOutput : Nat → Nat → α
  tolerance : α
  log : α → α

/-- The variables the main iteration assigns. -/
structure State (α : Type) where
  mValueFunction : Nat → Nat → α
  mValueFunctionNew : Nat → Nat → α
  mPolicyFunction : Nat → Nat → α
  expectedValueFunction : Nat → Nat → α
  gridCapitalNextPeriod : Nat
  valueHighSoFar : α
  capitalChoice : α
  diffHighSoFar : α
  maxDifference : α
  iteration : Nat

/-- Lines 109-116: the expectation pass. -/
def expectationStep (c : Params α) (s : State α) : State α :=
  forLoop c.nGridProductivity (fun nProductivity s =>
    forLoop c.nGridCapital (fun nCapital s =>
      forLoop c.nGridProductivity (fun nProductivityNextPeriod s =>
        let sum := s.expectedValueFunction nCapital nProductivity
          + c.mTransition nProductivity nProductivityNextPeriod
              * s.mValueFunction nCapital nProductivityNextPeriod
        { s with
          expectedValueFunction := setCell s.expectedValueFunction nCapital nProductivity sum })
        { s with
          expectedValueFunction := setCell s.expectedValueFunction nCapital nProductivity 0 })
      s) s

/-- Line 130-131: the value of candidate `nCapitalNextPeriod` for the cell
`(nCapital, nProductivity)`. -/
def valueProvisional (c : Params α) (s : State α) (nCapital nProductivity : Nat)
    (nCapitalNextPeriod : Nat) : α :=
  let consumption := c.mOutput nCapital nProductivity - c.vGridCapital nCapitalNextPeriod
  (1 - c.bbeta) * c.log consumption
    + c.bbeta * s.expectedValueFunction nCapitalNextPeriod nProductivity

/-- Lines 134-136 and 142-143: candidate `nCapitalNextPeriod` is accepted as the new best. -/
def acceptCandidate (c : Params α) (nCapital nProductivity nCapitalNextPeriod : Nat)
    (s : State α) : State α :=
  let valueHighSoFar := valueProvisional c s nCapital nProductivity nCapitalNextPeriod
  let capitalChoice := c.vGridCapital nCapitalNextPeriod
  { s with
    valueHighSoFar := valueHighSoFar
    capitalChoice := capitalChoice
    gridCapitalNextPeriod := nCapitalNextPeriod
    mValueFunctionNew := setCell s.mValueFunctionNew nCapital nProductivity valueHighSoFar
    mPolicyFunction := setCell s.mPolicyFunction nCapital nProductivity capitalChoice }

/-- Lines 128-144: the inner search loop, from candidate `nCapitalNextPeriod` with `left`
candidates up to the end of the grid (`left = nGridCapital - nCapitalNextPeriod`); the
`else` branch is the `break`. -/
def innerSearchFrom (c : Params α) (nCapital nProductivity : Nat) :
    Nat → Nat → State α → State α
  | 0, _, s => s
  | left + 1, nCapitalNextPeriod, s =>
    if valueProvisional c s nCapital nProductivity nCapitalNextPeriod > s.valueHighSoFar then
      innerSearchFrom c nCapital nProductivity left (nCapitalNextPeriod + 1)
        (acceptCandidate c nCapital nProductivity nCapitalNextPeriod s)
    else s

/-- Lines 125-146: the body of the loop over `nCapital`: reset the best value and choice,
then search from the cursor `gridCapitalNextPeriod`. -/
def searchCell (c : Params α) (nProductivity nCapital : Nat) (s : State α) : State α :=
  innerSearchFrom c nCapital nProductivity (c.nGridCapital - s.gridCapitalNextPeriod)
    s.gridCapitalNextPeriod
    { s with valueHighSoFar := -100000.0, capitalChoice := c.vGridCapital 0 }

/-- Lines 119-146: one productivity row of the maximization step. -/
def maximizationRow (c : Params α) (nProductivity : Nat) (s : State α) : State α :=
  forLoop c.nGridCapital (fun nCapital s => searchCell c nProductivity nCapital s)
    { s with gridCapitalNextPeriod := 0 }

/-- Lines 118-148: the maximization step. -/
def maximizationStep (c : Params α) (s : State α) : State α :=
  forLoop c.nGridProductivity (fun nProductivity s => maximizationRow c nProductivity s) s

/-- Lines 153-157: the body of the sup-norm loop at cell `(nCapital, nProductivity)`. -/
def diffCell (nProductivity nCapital : Nat) (s : State α) : State α :=
  let diff := |s.mValueFunction nCapital nProductivity - s.mValueFunctionNew nCapital nProductivity|
  let s := if diff > s.diffHighSoFar then { s with diffHighSoFar := diff } else s
  { s with
    mValueFunction :=
      setCell s.mValueFunction nCapital nProductivity (s.mValueFunctionNew nCapital nProductivity) }

/-- Lines 150-160: sup-norm difference and copy of the new value function. -/
def convergenceCheck (c : Params α) (s : State α) : State α :=
  let s := forLoop c.nGridProductivity (fun nProductivity s =>
    forLoop c.nGridCapital (fun nCapital s => diffCell nProductivity nCapital s) s)
    { s with diffHighSoFar := -100000.0 }
  { s with maxDifference := s.diffHighSoFar }

/-- Lines 109-162: one pass of the body of the `while` loop. -/
def iterationBody (c : Params α) (s : State α) : State α :=
  let s := convergenceCheck c (maximizationStep c (expectationStep c s))
  { s with iteration := s.iteration + 1 }

/-- Lines 107-166: `while (maxDifference > tolerance) body`, allowed at most `fuel` passes;
`none` when the condition still holds after `fuel` passes. -/
def mainIteration (c : Params α) : Nat → State α → Option (State α)
  | 0, s => if s.maxDifference > c.tolerance then none else some s
  | fuel + 1, s =>
    if s.maxDifference > c.tolerance then mainIteration c fuel (iterationBody c s) else some s

/-- Lines 85-89, 101-105: the state on entry to the `while` loop.  The scalars the source
leaves uninitialised (`gridCapitalNextPeriod`, `valueHighSoFar`, `capitalChoice`,
`diffHighSoFar`) are assigned before they are first read; they start at zero here. -/
def initialState : State α where
  mValueFunction := fun _ _ => 0
  mValueFunctionNew := fun _ _ => 0
  mPolicyFunction := fun _ _ => 0
  expectedValueFunction := fun _ _ => 0
  gridCapitalNextPeriod := 0
  valueHighSoFar := 0
  capitalChoice := 0
  diffHighSoFar := 0
  maxDifference := 10.0
  iteration := 0

/-- The read-only data of the program as shipped. -/
def shipped (pow : α → α → α) (log : α → α) : Params α where
  nGridCapital := nGridCapital
  nGridProductivity := nGridProductivity
  bbeta := bbeta
  mTransition := readTable mTransition
  vGridCapital := fun i => (vGridCapital pow).getD i 0
  mOutput := mOutput pow
  tolerance := 0.0000001
  log := log

/-! ## Intermediate states and examined candidates of the maximization step -/

/-- The candidates examined by the inner search loop (lines 128-144), in order: the values of
`nCapitalNextPeriod` at which the loop body runs and line 131 computes `valueProvisional`.
The recursion is that of `innerSearchFrom`; an accepted candidate continues the loop, a
rejected one is the last examined. -/
def innerSearchExamined (c : Params α) (nCapital nProductivity : Nat) :
    Nat → Nat → State α → List Nat
  | 0, _, _ => []
  | left + 1, nCapitalNextPeriod, s =>
    if valueProvisional c s nCapital nProductivity nCapitalNextPeriod > s.valueHighSoFar then
      nCapitalNextPeriod ::
        innerSearchExamined c nCapital nProductivity left (nCapitalNextPeriod + 1)
          (acceptCandidate c nCapital nProductivity nCapitalNextPeriod s)
    else [nCapitalNextPeriod]

/-- The candidates examined for the cell `(nCapital, nProductivity)` (lines 125-146), from
the state in which the cell is entered. -/
def searchCellExamined (c : Params α) (nProductivity nCapital : Nat) (s : State α) : List Nat :=
  innerSearchExamined c nCapital nProductivity (c.nGridCapital - s.gridCapitalNextPeriod)
    s.gridCapitalNextPeriod
    { s with valueHighSoFar := -100000.0, capitalChoice := c.vGridCapital 0 }

/-- The state of row `nProductivity` (lines 119-146) after its first `n` cells, that is, on
entry to cell `n`; `s` is the state on entry to the row. -/
def rowPrefix (c : Params α) (nProductivity : Nat) (s : State α) (n : Nat) : State α :=
  forLoop n (fun nCapital s => searchCell c nProductivity nCapital s)
    { s with gridCapitalNextPeriod := 0 }

/-- The state of the maximization step (lines 118-148) after its first `n` rows; `s` is the
state on entry to the step. -/
def stepPrefix (c : Params α) (s : State α) (n : Nat) : State α :=
  forLoop n (fun nProductivity s => maximizationRow c nProductivity s) s

/-- The state in which the maximization step started from `s` enters the cell
`(nCapital, nProductivity)`. -/
def cellEntry (c : Params α) (s : State α) (nProductivity nCapital : Nat) : State α :=
  rowPrefix c nProductivity (stepPrefix c s nProductivity) nCapital

/-- The number of candidate evaluations (runs of the inner loop body) in row `nProductivity`
of the maximization step entered in state `s`, summed over all capital indices. -/
def rowEvaluations (c : Params α) (nProductivity : Nat) (s : State α) : Nat :=
  ∑ nCapital in Finset.range c.nGridCapital,
    (searchCellExamined c nProductivity nCapital (rowPrefix c nProductivity s nCapital)).length

/-! ## Specification functions -/

/-- The expected value the pass computes for the cell `(k, p)` from the value function `V`,
summing the first `n` next-period states. -/
def expectedSum (c : Params α) (V : Nat → Nat → α) (k p n : Nat) : α :=
  ∑ q in Finset.range n, c.mTransition p q * V k q

/-- Invariant of the sup-norm loops (lines 151-159).  `V` and `W` are the value function and
the new value function on entry, `s` the state on entry, `done` the set of cells handled so
far: the new value function is untouched, handled cells hold the copy, the other cells are as
on entry, and `diffHighSoFar` is the sentinel or the largest difference met so far. -/
def CheckInv (s : State α) (done : Nat → Nat → Prop) (t : State α) : Prop :=
  t.mValueFunctionNew = s.mValueFunctionNew
  ∧ (∀ a b, done a b → t.mValueFunction a b = s.mValueFunctionNew a b)
  ∧ (∀ a b, ¬ done a b → t.mValueFunction a b = s.mValueFunction a b)
  ∧ (∀ a b, done a b → |s.mValueFunction a b - s.mValueFunctionNew a b| ≤ t.diffHighSoFar)
  ∧ ((t.diffHighSoFar = -100000 ∧ ∀ a b, ¬ done a b)
      ∨ ∃ a b, done a b ∧ t.diffHighSoFar = |s.mValueFunction a b - s.mValueFunctionNew a b|)
  ∧ t.mPolicyFunction = s.mPolicyFunction
  ∧ t.expectedValueFunction = s.expectedValueFunction
  ∧ t.gridCapitalNextPeriod = s.gridCapitalNextPeriod
  ∧ t.valueHighSoFar = s.valueHighSoFar
  ∧ t.capitalChoice = s.capitalChoice
  ∧ t.maxDifference = s.maxDifference
  ∧ t.iteration = s.iteration

/-- Conditions on the read-only data under which the value function stays in `[-B, 0]`:
a non-empty increasing grid, a discount factor in `[0, 1]`, non-negative transition weights
with row sums at most `r`, and `L ≤ log(consumption) ≤ 0` at every cell and candidate. -/
structure Calibrated (c : Params α) (L r B : α) : Prop where
  grid_nonempty : 0 < c.nGridCapital
  beta_nonneg : 0 ≤ c.bbeta
  beta_le_one : c.bbeta ≤ 1
  transition_nonneg : ∀ p q, p < c.nGridProductivity → q < c.nGridProductivity →
    0 ≤ c.mTransition p q
  transition_sum : ∀ p, p < c.nGridProductivity →
    ∑ q in Finset.range c.nGridProductivity, c.mTransition p q ≤ r
  log_lower : ∀ k p j, k < c.nGridCapital → p < c.nGridProductivity → j < c.nGridCapital →
    L ≤ c.log (c.mOutput k p - c.vGridCapital j)
  log_upper : ∀ k p j, k < c.nGridCapital → p < c.nGridProductivity → j < c.nGridCapital →
    c.log (c.mOutput k p - c.vGridCapital j) ≤ 0
  grid_mono : ∀ i j, i ≤ j → j < c.nGridCapital → c.vGridCapital i ≤ c.vGridCapital j
  bound_nonneg : 0 ≤ B
  bound_closed : -B ≤ (1 - c.bbeta) * L - c.bbeta * (r * B)
  bound_sentinel : -100000 < -B

/-- The value function `V` of a state lies in `[-B, 0]` on the grid. -/
def ValueBounded (c : Params α) (B : α) (V : Nat → Nat → α) : Prop :=
  ∀ k p, k < c.nGridCapital → p < c.nGridProductivity → -B ≤ V k p ∧ V k p ≤ 0

/-- The policy function is weakly increasing in the capital index, for every productivity
index below `n`. -/
def PolicyMonotone (c : Params α) (n : Nat) (P : Nat → Nat → α) : Prop :=
  ∀ p k1 k2, p < n → k1 ≤ k2 → k2 < c.nGridCapital → P k1 p ≤ P k2 p

/-- Invariant of the loop over `nCapital` in row `p` of the maximization step, after `n`
cells; `s` is the state on entry to the row. -/
structure RowInv (c : Params α) (s : State α) (p n : Nat) (t : State α) : Prop where
  value : t.mValueFunction = s.mValueFunction
  expected : t.expectedValueFunction = s.expectedValueFunction
  cursor : t.gridCapitalNextPeriod < c.nGridCapital
  frameNew : ∀ a b, b ≠ p → t.mValueFunctionNew a b = s.mValueFunctionNew a b
  framePolicy : ∀ a b, b ≠ p → t.mPolicyFunction a b = s.mPolicyFunction a b
  written : ∀ k, k < n → ∃ j, j ≤ t.gridCapitalNextPeriod
    ∧ t.mPolicyFunction k p = c.vGridCapital j
    ∧ t.mValueFunctionNew k p = valueProvisional c s k p j
  mono : ∀ k1 k2, k1 ≤ k2 → k2 < n → t.mPolicyFunction k1 p ≤ t.mPolicyFunction k2 p

/-- Invariant of the loop over `nProductivity` of the maximization step, after `n` rows; `s`
is the state on entry to the step. -/
structure StepInv (c : Params α) (B : α) (s : State α) (n : Nat) (t : State α) : Prop where
  value : t.mValueFunction = s.mValueFunction
  expected : t.expectedValueFunction = s.expectedValueFunction
  frameNew : ∀ a b, n ≤ b → t.mValueFunctionNew a b = s.mValueFunctionNew a b
  framePolicy : ∀ a b, n ≤ b → t.mPolicyFunction a b = s.mPolicyFunction a b
  bounded : ∀ k p, k < c.nGridCapital → p < n →
    -B ≤ t.mValueFunctionNew k p ∧ t.mValueFunctionNew k p ≤ 0
  mono : PolicyMonotone c n t.mPolicyFunction

/-- Frame condition of the maximization step between two states: the value function and the
expected value function are the same, and the new value function and the policy function
agree on every cell outside `touched`. -/
def FrameOutside (touched : Nat → Nat → Prop) (s t : State α) : Prop :=
  t.mValueFunction = s.mValueFunction
  ∧ t.expectedValueFunction = s.expectedValueFunction
  ∧ (∀ a b, ¬ touched a b → t.mValueFunctionNew a b = s.mValueFunctionNew a b)
  ∧ (∀ a b, ¬ touched a b → t.mPolicyFunction a b = s.mPolicyFunction a b)

end Program

/-! ## A small instance for evaluating the definitions -/

/-- A grid of three capital points and two productivity states over `ℚ`; `log` is a stand-in
for the libm logarithm. -/
def demoParams : Params ℚ where
  nGridCapital := 3
  nGridProductivity := 2
  bbeta := 1 / 2
  mTransition := readTable [[1 / 2, 1 / 2], [1 / 4, 3 / 4]]
  vGridCapital := fun i => (i : ℚ)
  mOutput := fun k p => 10 + (k : ℚ) + (p : ℚ)
  tolerance := 0.0000001
  log := fun x => x - 1

/-- A state over `ℚ` for `demoParams`. -/
def demoState : State ℚ where
  mValueFunction := readTable [[1, 2], [3, 5], [4, 8]]
  mValueFunctionNew := readTable [[1, 2], [3, 4], [6, 8]]
  mPolicyFunction := fun _ _ => 0
  expectedValueFunction := readTable [[0, 0], [4, 1], [2, 3]]
  gridCapitalNextPeriod := 0
  valueHighSoFar := 0
  capitalChoice := 0
  diffHighSoFar := 0
  maxDifference := 10.0
  iteration := 0


/-- A one-cell instance over `ℚ` on which the value function is at its fixed point from the
start: consumption is `1` and the stand-in logarithm vanishes there. -/
def tinyParams : Params ℚ where
  nGridCapital := 1
  nGridProductivity := 1
  bbeta := 1 / 2
  mTransition := readTable [[1]]
  vGridCapital := fun _ => 1
  mOutput := fun _ _ => 2
  tolerance := 0.0000001
  log := fun x => x - 1


/-- A state over `ℚ` for `demoParams` whose value function is so low that no candidate value
reaches the sentinel `-100000`. -/
def staleState : State ℚ where
  mValueFunction := fun _ _ => -10000000
  mValueFunctionNew := readTable [[1, 2], [3, 4], [6, 8]]
  mPolicyFunction := fun _ _ => 7
  expectedValueFunction := fun _ _ => 0
  gridCapitalNextPeriod := 2
  valueHighSoFar := 0
  capitalChoice := 0
  diffHighSoFar := 0
  maxDifference := 10.0
  iteration := 5


/-! ## Loop lemmas -/

section Lemmas

variable {α : Type} [LinearOrderedField α]

theorem forLoop_succ {σ : Type} (n : Nat) (body : Nat → σ → σ) (s : σ) :
    forLoop (n + 1) body s = body n (forLoop n body s) := rfl

/-- Loop invariant rule for `forLoop`: the invariant may depend on the number of passes done. -/
theorem forLoop_invariant {σ : Type} (P : Nat → σ → Prop) (n : Nat) (body : Nat → σ → σ) (s : σ)
    (h0 : P 0 s) (hstep : ∀ i, i < n → ∀ t, P i t → P (i + 1) (body i t)) :
    P n (forLoop n body s) := by
  induction n with
  | zero => exact h0
  | succ m ih =>
    exact hstep m (Nat.lt_succ_self m) _
      (ih (fun i hi t ht => hstep i (Nat.lt_succ_of_lt hi) t ht))

theorem setCell_same {β : Type} (m : Nat → Nat → β) (i j : Nat) (v : β) :
    setCell m i j v i j = v := by
  simp [setCell]

theorem setCell_other {β : Type} (m : Nat → Nat → β) (i j a b : Nat) (v : β)
    (h : ¬(a = i ∧ b = j)) : setCell m i j v a b = m a b := by
  simp [setCell, h]

theorem setCell_setCell {β : Type} (m : Nat → Nat → β) (i j : Nat) (v w : β) :
    setCell (setCell m i j v) i j w = setCell m i j w := by
  funext a b
  simp only [setCell]
  split <;> rfl

/-! ### Expectation step -/

/-- The innermost loop of the expectation pass (lines 111-114) for one cell. -/
theorem expectation_cell (c : Params α) (s : State α) (k p n : Nat) :
    forLoop n (fun nProductivityNextPeriod s =>
        let sum := s.expectedValueFunction k p
          + c.mTransition p nProductivityNextPeriod * s.mValueFunction k nProductivityNextPeriod
        { s with expectedValueFunction := setCell s.expectedValueFunction k p sum })
        { s with expectedValueFunction := setCell s.expectedValueFunction k p 0 }
      = { s with
          expectedValueFunction :=
            setCell s.expectedValueFunction k p (expectedSum c s.mValueFunction k p n) } := by
  induction n with
  | zero => simp [forLoop, expectedSum]
  | succ m ih =>
    rw [forLoop_succ, ih]
    simp only [expectedSum, Finset.sum_range_succ, setCell_same]
    congr 1
    funext a b
    simp only [setCell]
    split <;> rfl

/-- The loop over `nCapital` of the expectation pass for one productivity column. -/
theorem expectation_column (c : Params α) (s : State α) (p n : Nat) :
    forLoop n (fun nCapital s =>
      forLoop c.nGridProductivity (fun nProductivityNextPeriod s =>
        let sum := s.expectedValueFunction nCapital p
          + c.mTransition p nProductivityNextPeriod
              * s.mValueFunction nCapital nProductivityNextPeriod
        { s with expectedValueFunction := setCell s.expectedValueFunction nCapital p sum })
        { s with expectedValueFunction := setCell s.expectedValueFunction nCapital p 0 }) s
      = { s with
          expectedValueFunction := fun a b =>
            if a < n ∧ b = p then expectedSum c s.mValueFunction a p c.nGridProductivity
            else s.expectedValueFunction a b } := by
  induction n with
  | zero => simp [forLoop]
  | succ m ih =>
    rw [forLoop_succ, ih, expectation_cell]
    congr 1
    funext a b
    simp only [setCell]
    by_cases hb : b = p
    · by_cases ha : a = m
      · subst ha hb; simp
      · by_cases hlt : a < m
        · simp [hb, ha, hlt, Nat.lt_succ_of_lt hlt]
        · have : ¬ a < m + 1 := by omega
          simp [hb, ha, hlt, this]
    · simp [hb]

/-- The state after the expectation pass, in closed form. -/
theorem expectationStep_eq (c : Params α) (s : State α) :
    expectationStep c s
      = { s with
          expectedValueFunction := fun a b =>
            if a < c.nGridCapital ∧ b < c.nGridProductivity then
              expectedSum c s.mValueFunction a b c.nGridProductivity
            else s.expectedValueFunction a b } := by
  unfold expectationStep
  generalize hN : c.nGridProductivity = N
  have key : ∀ n, forLoop n (fun nProductivity s =>
      forLoop c.nGridCapital (fun nCapital s =>
        forLoop N (fun nProductivityNextPeriod s =>
          let sum := s.expectedValueFunction nCapital nProductivity
            + c.mTransition nProductivity nProductivityNextPeriod
                * s.mValueFunction nCapital nProductivityNextPeriod
          { s with
            expectedValueFunction := setCell s.expectedValueFunction nCapital nProductivity sum })
          { s with
            expectedValueFunction := setCell s.expectedValueFunction nCapital nProductivity 0 })
        s) s
      = { s with
          expectedValueFunction := fun a b =>
            if a < c.nGridCapital ∧ b < n then expectedSum c s.mValueFunction a b N
            else s.expectedValueFunction a b } := by
    intro n
    induction n with
    | zero => simp [forLoop]
    | succ m ih =>
      rw [forLoop_succ, ih]
      have h := expectation_column c
        { s with
          expectedValueFunction := fun a b =>
            if a < c.nGridCapital ∧ b < m then expectedSum c s.mValueFunction a b N
            else s.expectedValueFunction a b } m c.nGridCapital
      rw [hN] at h
      rw [h]
      congr 1
      funext a b
      by_cases hb : b = m
      · subst hb; simp
      · by_cases hlt : b < m
        · simp [hb, hlt, Nat.lt_succ_of_lt hlt]
        · have : ¬ b < m + 1 := by omega
          simp [hb, hlt, this]
  exact key N

/-! ### Inner search -/

theorem valueProvisional_acceptCandidate (c : Params α) (s : State α) (k p j k' p' i : Nat) :
    valueProvisional c (acceptCandidate c k p j s) k' p' i = valueProvisional c s k' p' i := rfl

theorem acceptCandidate_acceptCandidate (c : Params α) (s : State α) (k p i j : Nat) :
    acceptCandidate c k p j (acceptCandidate c k p i s) = acceptCandidate c k p j s := by
  simp only [acceptCandidate, valueProvisional, setCell_setCell]

/-- The search stops at once when the candidate it is about to examine does not improve on the
best value so far, or when no candidate is left. -/
theorem innerSearchFrom_stop (c : Params α) (k p left j : Nat) (s : State α)
    (h : 0 < left → valueProvisional c s k p j ≤ s.valueHighSoFar) :
    innerSearchFrom c k p left j s = s := by
  cases left with
  | zero => rfl
  | succ n =>
    have h' := h (Nat.succ_pos n)
    simp [innerSearchFrom, not_lt.mpr h']

/-- The search from `j`, with the candidates `j, …, j + left - 1` ahead: if the candidate values
rise strictly from `j` up to `m` and the value after `m` (when there is one) does not exceed
that of `m`, the search accepts `j, …, m` in turn and stops with `m` accepted. -/
theorem innerSearchFrom_run (c : Params α) (k p : Nat) :
    ∀ (left j : Nat) (s : State α) (m : Nat), j ≤ m → m < j + left →
      s.valueHighSoFar < valueProvisional c s k p j →
      (∀ i, j ≤ i → i < m → valueProvisional c s k p i < valueProvisional c s k p (i + 1)) →
      (m + 1 < j + left → valueProvisional c s k p (m + 1) ≤ valueProvisional c s k p m) →
      innerSearchFrom c k p left j s = acceptCandidate c k p m s := by
  intro left
  induction left with
  | zero => intro j s m h1 h2; omega
  | succ n ih =>
    intro j s m hjm hm h0 hinc hdec
    rw [innerSearchFrom, if_pos h0]
    rcases Nat.eq_or_lt_of_le hjm with hEq | hLt
    · subst hEq
      apply innerSearchFrom_stop
      intro hn
      rw [valueProvisional_acceptCandidate]
      exact hdec (by omega)
    · rw [ih (j + 1) (acceptCandidate c k p j s) m hLt (by omega)
        (by simpa [valueProvisional_acceptCandidate] using hinc j le_rfl hLt)
        (fun i hi him => by
          simpa [valueProvisional_acceptCandidate] using hinc i (by omega) him)
        (fun h => by
          simpa [valueProvisional_acceptCandidate] using hdec (by omega))]
      exact acceptCandidate_acceptCandidate c s k p j m

theorem neg_sentinel_eq : (-100000.0 : α) = -100000 := by norm_num

/-- The state in which `searchCell` starts its inner loop. -/
theorem searchCell_eq (c : Params α) (p k : Nat) (s : State α) :
    searchCell c p k s
      = innerSearchFrom c k p (c.nGridCapital - s.gridCapitalNextPeriod) s.gridCapitalNextPeriod
          { s with valueHighSoFar := -100000, capitalChoice := c.vGridCapital 0 } := by
  simp only [searchCell, neg_sentinel_eq]

/-- The search of one cell in closed form, when the first candidate beats the sentinel and the
candidate values rise strictly up to `m` and do not rise at `m + 1`. -/
theorem searchCell_run (c : Params α) (p k m : Nat) (s : State α)
    (hsm : s.gridCapitalNextPeriod ≤ m) (hm : m < c.nGridCapital)
    (h0 : -100000 < valueProvisional c s k p s.gridCapitalNextPeriod)
    (hinc : ∀ i, s.gridCapitalNextPeriod ≤ i → i < m →
      valueProvisional c s k p i < valueProvisional c s k p (i + 1))
    (hdec : m + 1 < c.nGridCapital →
      valueProvisional c s k p (m + 1) ≤ valueProvisional c s k p m) :
    searchCell c p k s
      = { s with
          valueHighSoFar := valueProvisional c s k p m
          capitalChoice := c.vGridCapital m
          gridCapitalNextPeriod := m
          mValueFunctionNew := setCell s.mValueFunctionNew k p (valueProvisional c s k p m)
          mPolicyFunction := setCell s.mPolicyFunction k p (c.vGridCapital m) } := by
  rw [searchCell_eq]
  exact innerSearchFrom_run c k p (c.nGridCapital - s.gridCapitalNextPeriod)
    s.gridCapitalNextPeriod
    { s with valueHighSoFar := -100000, capitalChoice := c.vGridCapital 0 } m hsm
    (by omega) h0 hinc (fun h => hdec (by omega))


/-! ### Sup-norm difference and copy -/

theorem checkInv_congr {s t : State α} {done done' : Nat → Nat → Prop}
    (h : CheckInv s done t) (hd : ∀ a b, done a b ↔ done' a b) : CheckInv s done' t := by
  have : done = done' := by funext a b; exact propext (hd a b)
  rw [← this]; exact h

/-- One pass of the body of the sup-norm loop handles one more cell. -/
theorem checkInv_step {s t : State α} {done : Nat → Nat → Prop} (k p : Nat)
    (h : CheckInv s done t) (hnew : ¬ done k p) :
    CheckInv s (fun a b => done a b ∨ (a = k ∧ b = p)) (diffCell p k t) := by
  obtain ⟨hW, hD, hN, hle, hmax, h1, h2, h3, h4, h5, h6, h7⟩ := h
  have hread : |t.mValueFunction k p - t.mValueFunctionNew k p|
      = |s.mValueFunction k p - s.mValueFunctionNew k p| := by
    rw [hN k p hnew, hW]
  have hd : (diffCell p k t).diffHighSoFar
      = max t.diffHighSoFar |s.mValueFunction k p - s.mValueFunctionNew k p| := by
    simp only [diffCell, hread]
    split
    · rename_i hgt; exact (max_eq_right (le_of_lt hgt)).symm
    · rename_i hgt; exact (max_eq_left (not_lt.mp hgt)).symm
  have hV : (diffCell p k t).mValueFunction
      = setCell t.mValueFunction k p (s.mValueFunctionNew k p) := by
    simp only [diffCell]; split <;> rw [hW]
  have hfr : (diffCell p k t).mValueFunctionNew = t.mValueFunctionNew
      ∧ (diffCell p k t).mPolicyFunction = t.mPolicyFunction
      ∧ (diffCell p k t).expectedValueFunction = t.expectedValueFunction
      ∧ (diffCell p k t).gridCapitalNextPeriod = t.gridCapitalNextPeriod
      ∧ (diffCell p k t).valueHighSoFar = t.valueHighSoFar
      ∧ (diffCell p k t).capitalChoice = t.capitalChoice
      ∧ (diffCell p k t).maxDifference = t.maxDifference
      ∧ (diffCell p k t).iteration = t.iteration := by
    simp only [diffCell]; split <;> simp
  obtain ⟨f1, f2, f3, f4, f5, f6, f7, f8⟩ := hfr
  refine ⟨f1.trans hW, ?_, ?_, ?_, ?_, f2.trans h1, f3.trans h2, f4.trans h3, f5.trans h4,
    f6.trans h5, f7.trans h6, f8.trans h7⟩
  · intro a b hab
    rw [hV]
    by_cases hc : a = k ∧ b = p
    · obtain ⟨rfl, rfl⟩ := hc; rw [setCell_same]
    · rw [setCell_other _ _ _ _ _ _ hc]
      rcases hab with hab | hab
      · exact hD a b hab
      · exact absurd hab hc
  · intro a b hab
    rw [hV]
    have hc : ¬ (a = k ∧ b = p) := fun hc => hab (Or.inr hc)
    rw [setCell_other _ _ _ _ _ _ hc]
    exact hN a b (fun hd => hab (Or.inl hd))
  · intro a b hab
    rw [hd]
    rcases hab with hab | ⟨rfl, rfl⟩
    · exact le_trans (hle a b hab) (le_max_left _ _)
    · exact le_max_right _ _
  · right
    rw [hd]
    rcases le_total t.diffHighSoFar |s.mValueFunction k p - s.mValueFunctionNew k p| with hc | hc
    · exact ⟨k, p, Or.inr ⟨rfl, rfl⟩, max_eq_right hc⟩
    · rcases hmax with ⟨hs, _⟩ | ⟨a, b, hab, he⟩
      · exfalso
        have h0 : (0 : α) ≤ |s.mValueFunction k p - s.mValueFunctionNew k p| := abs_nonneg _
        rw [hs] at hc
        linarith
      · exact ⟨a, b, Or.inl hab, by rw [max_eq_left hc, he]⟩

/-- The loop over `nCapital` of the sup-norm pass, for column `p`, after `n` rows. -/
theorem checkInv_column {s t : State α} {done : Nat → Nat → Prop} (p n : Nat)
    (h : CheckInv s done t) (hp : ∀ a, ¬ done a p) :
    CheckInv s (fun a b => done a b ∨ (a < n ∧ b = p))
      (forLoop n (fun nCapital s => diffCell p nCapital s) t) := by
  apply forLoop_invariant (fun i u => CheckInv s (fun a b => done a b ∨ (a < i ∧ b = p)) u)
  · exact checkInv_congr h (fun a b => by simp)
  · intro i _ u hu
    have := checkInv_step i p hu (by simp [hp i])
    exact checkInv_congr this (fun a b => by
      constructor
      · rintro ((h1 | ⟨h1, h2⟩) | ⟨h1, h2⟩)
        · exact Or.inl h1
        · exact Or.inr ⟨by omega, h2⟩
        · exact Or.inr ⟨by omega, h2⟩
      · rintro (h1 | ⟨h1, h2⟩)
        · exact Or.inl (Or.inl h1)
        · rcases Nat.lt_succ_iff_lt_or_eq.mp h1 with h3 | h3
          · exact Or.inl (Or.inr ⟨h3, h2⟩)
          · exact Or.inr ⟨h3, h2⟩)

/-- The two nested loops of the sup-norm pass (lines 151-159). -/
theorem checkInv_loops (c : Params α) (s : State α) :
    CheckInv s (fun a b => a < c.nGridCapital ∧ b < c.nGridProductivity)
      (forLoop c.nGridProductivity (fun nProductivity s =>
        forLoop c.nGridCapital (fun nCapital s => diffCell nProductivity nCapital s) s)
        { s with diffHighSoFar := -100000 }) := by
  apply forLoop_invariant
    (fun n u => CheckInv s (fun a b => a < c.nGridCapital ∧ b < n) u)
  · refine ⟨rfl, ?_, fun _ _ _ => rfl, ?_, Or.inl ⟨rfl, ?_⟩, rfl, rfl, rfl, rfl, rfl, rfl, rfl⟩
    · intro a b hab; exact absurd hab.2 (Nat.not_lt_zero b)
    · intro a b hab; exact absurd hab.2 (Nat.not_lt_zero b)
    · intro a b hab; exact absurd hab.2 (Nat.not_lt_zero b)
  · intro n _ u hu
    have := checkInv_column n c.nGridCapital hu (fun a h => Nat.lt_irrefl n h.2)
    exact checkInv_congr this (fun a b => by
      constructor
      · rintro (⟨h1, h2⟩ | ⟨h1, h2⟩)
        · exact ⟨h1, by omega⟩
        · exact ⟨h1, by omega⟩
      · rintro ⟨h1, h2⟩
        rcases Nat.lt_succ_iff_lt_or_eq.mp h2 with h3 | h3
        · exact Or.inl ⟨h1, h3⟩
        · exact Or.inr ⟨h1, h3⟩)

/-- The state after the convergence check: the loops' result with `maxDifference` assigned. -/
theorem convergenceCheck_eq (c : Params α) (s : State α) :
    convergenceCheck c s
      = { forLoop c.nGridProductivity (fun nProductivity s =>
            forLoop c.nGridCapital (fun nCapital s => diffCell nProductivity nCapital s) s)
            { s with diffHighSoFar := -100000 } with
          maxDifference :=
            (forLoop c.nGridProductivity (fun nProductivity s =>
              forLoop c.nGridCapital (fun nCapital s => diffCell nProductivity nCapital s) s)
              { s with diffHighSoFar := -100000 }).diffHighSoFar } := by
  simp only [convergenceCheck, neg_sentinel_eq]

/-! ### The `while` loop -/

/-- The `while` loop returns within `fuel` passes exactly when some `n ≤ fuel` is the first
number of passes after which the loop condition fails; the result is the state after those
`n` passes. -/
theorem mainIteration_eq_some_iff (c : Params α) :
    ∀ (fuel : Nat) (s s' : State α), mainIteration c fuel s = some s' ↔
      ∃ n, n ≤ fuel ∧ s' = (iterationBody c)^[n] s
        ∧ ((iterationBody c)^[n] s).maxDifference ≤ c.tolerance
        ∧ ∀ m, m < n → c.tolerance < ((iterationBody c)^[m] s).maxDifference := by
  intro fuel
  induction fuel with
  | zero =>
    intro s s'
    simp only [mainIteration]
    constructor
    · intro h
      split at h
      · exact absurd h (by simp)
      · rename_i hc
        exact ⟨0, le_rfl, (Option.some.inj h).symm, not_lt.mp hc, fun m hm => absurd hm (by omega)⟩
    · rintro ⟨n, hn, hs, hle, -⟩
      obtain rfl : n = 0 := by omega
      have hle' : s.maxDifference ≤ c.tolerance := hle
      rw [if_neg (not_lt.mpr hle')]
      exact congrArg some hs.symm
  | succ k ih =>
    intro s s'
    simp only [mainIteration]
    by_cases hc : s.maxDifference > c.tolerance
    · rw [if_pos hc, ih]
      constructor
      · rintro ⟨n, hn, hs, hle, hgt⟩
        refine ⟨n + 1, by omega, hs, hle, ?_⟩
        intro m hm
        cases m with
        | zero => exact hc
        | succ j => exact hgt j (by omega)
      · rintro ⟨n, hn, hs, hle, hgt⟩
        cases n with
        | zero => exact absurd hle (not_le.mpr hc)
        | succ j =>
          exact ⟨j, by omega, hs, hle, fun m hm => hgt (m + 1) (by omega)⟩
    · rw [if_neg hc]
      constructor
      · intro h
        exact ⟨0, by omega, (Option.some.inj h).symm, not_lt.mp hc,
          fun m hm => absurd hm (by omega)⟩
      · rintro ⟨n, hn, hs, hle, hgt⟩
        cases n with
        | zero => exact congrArg some hs.symm
        | succ j => exact absurd (hgt 0 (by omega)) hc

/-- The `while` loop runs out of its `fuel` passes exactly when the loop condition holds
before each of them and after the last. -/
theorem mainIteration_eq_none_iff (c : Params α) :
    ∀ (fuel : Nat) (s : State α), mainIteration c fuel s = none ↔
      ∀ m, m ≤ fuel → c.tolerance < ((iterationBody c)^[m] s).maxDifference := by
  intro fuel
  induction fuel with
  | zero =>
    intro s
    simp only [mainIteration]
    constructor
    · intro h m hm
      obtain rfl : m = 0 := by omega
      by_contra hc
      have hc' : ¬ s.maxDifference > c.tolerance := hc
      rw [if_neg hc'] at h
      exact absurd h (by simp)
    · intro h
      have h0 : s.maxDifference > c.tolerance := h 0 le_rfl
      rw [if_pos h0]
  | succ k ih =>
    intro s
    simp only [mainIteration]
    by_cases hc : s.maxDifference > c.tolerance
    · rw [if_pos hc, ih]
      constructor
      · intro h m hm
        cases m with
        | zero => exact hc
        | succ j => exact h j (by omega)
      · intro h m hm
        exact h (m + 1) (by omega)
    · rw [if_neg hc]
      constructor
      · intro h; exact absurd h (by simp)
      · intro h; exact absurd (h 0 (by omega)) hc

/-- After a pass of the loop body every cell of the value function holds the new value
function of that pass. -/
theorem iterationBody_copy (c : Params α) (s : State α) (k p : Nat)
    (hk : k < c.nGridCapital) (hp : p < c.nGridProductivity) :
    (iterationBody c s).mValueFunction k p = (iterationBody c s).mValueFunctionNew k p := by
  simp only [iterationBody]
  rw [convergenceCheck_eq]
  obtain ⟨hW, hD, -⟩ := checkInv_loops c (maximizationStep c (expectationStep c s))
  show _ = _
  simp only []
  rw [hD k p ⟨hk, hp⟩, hW]


/-! ### Capital grid -/

theorem getD_setD {β : Type} (a : Array β) (i j : Nat) (v d : β) :
    (a.setD i v).getD j d = if j = i ∧ i < a.size then v else a.getD j d := by
  by_cases h : i < a.size
  · by_cases hj : j = i
    · subst hj
      simp [Array.setD, Array.getD, h]
    · have hji : ¬ i = j := fun e => hj e.symm
      by_cases hlt : j < a.size
      · simp [Array.setD, Array.getD, h, hj, hlt, Array.getElem_set, hji]
      · simp [Array.setD, Array.getD, h, hj, hlt]
  · simp [Array.setD, h]

/-- The grid loop after `n` passes over an array of `N` entries: the size is still `N`, the
first `n` entries hold the grid values and the rest are still zero. -/
theorem gridLoop_invariant (kss : α) (N n : Nat) (hn : n ≤ N) :
    (forLoop n (fun nCapital (g : Array α) =>
        g.setD nCapital (0.5 * kss + 0.00001 * (nCapital : α))) (Array.mkArray N 0)).size = N
    ∧ ∀ i, (forLoop n (fun nCapital (g : Array α) =>
        g.setD nCapital (0.5 * kss + 0.00001 * (nCapital : α))) (Array.mkArray N 0)).getD i 0
        = if i < n then 0.5 * kss + 0.00001 * (i : α) else 0 := by
  induction n with
  | zero =>
    refine ⟨by simp [forLoop], fun i => ?_⟩
    simp only [forLoop, Nat.not_lt_zero, if_false]
    by_cases h : i < N <;> simp [Array.getD, h]
  | succ m ih =>
    obtain ⟨hsize, hget⟩ := ih (by omega)
    rw [forLoop_succ]
    refine ⟨by rw [Array.size_setD]; exact hsize, fun i => ?_⟩
    rw [getD_setD, hsize, hget]
    by_cases hi : i = m
    · subst hi
      have : i < N := by omega
      simp [this]
    · by_cases hlt : i < m
      · have : i < m + 1 := by omega
        simp [hi, hlt, this]
      · have : ¬ i < m + 1 := by omega
        simp [hi, hlt, this]

theorem gridLoop_size (kss : α) (N : Nat) : (gridLoop kss N).size = N :=
  (gridLoop_invariant kss N N le_rfl).1

theorem gridLoop_getD (kss : α) (N i : Nat) (hi : i < N) :
    (gridLoop kss N).getD i 0 = 0.5 * kss + 0.00001 * (i : α) := by
  have := (gridLoop_invariant kss N N le_rfl).2 i
  rw [if_pos hi] at this
  exact this


/-! ### Output table -/

/-- The output loops in closed form (lines 93-97). -/
theorem outputLoop_eq (pow : α → α → α) (grid : Nat → α) (nK k p : Nat) :
    outputLoop pow grid nK k p
      = if k < nK ∧ p < nGridProductivity then
          (vProductivity (α := α)).getD p 0 * pow (grid k) aalpha
        else 0 := by
  unfold outputLoop
  have inner : ∀ (q n : Nat) (m : Nat → Nat → α),
      forLoop n (fun nCapital m =>
        setCell m nCapital q ((vProductivity (α := α)).getD q 0 * pow (grid nCapital) aalpha)) m
      = fun a b => if a < n ∧ b = q then (vProductivity (α := α)).getD q 0 * pow (grid a) aalpha
          else m a b := by
    intro q n m
    induction n with
    | zero => simp [forLoop]
    | succ j ih =>
      rw [forLoop_succ, ih]
      funext a b
      simp only [setCell]
      by_cases hb : b = q
      · by_cases ha : a = j
        · subst ha hb; simp
        · by_cases hlt : a < j
          · simp [hb, ha, hlt, Nat.lt_succ_of_lt hlt]
          · have : ¬ a < j + 1 := by omega
            simp [hb, ha, hlt, this]
      · simp [hb]
  have outer : ∀ n : Nat,
      forLoop n (fun nProductivity m =>
        forLoop nK (fun nCapital m =>
          setCell m nCapital nProductivity
            ((vProductivity (α := α)).getD nProductivity 0 * pow (grid nCapital) aalpha)) m)
        (fun _ _ => 0)
      = fun a b => if a < nK ∧ b < n then (vProductivity (α := α)).getD b 0 * pow (grid a) aalpha
          else 0 := by
    intro n
    induction n with
    | zero => simp [forLoop]
    | succ j ih =>
      rw [forLoop_succ, ih, inner]
      funext a b
      by_cases hb : b = j
      · subst hb; simp
      · by_cases hlt : b < j
        · simp [hb, hlt, Nat.lt_succ_of_lt hlt]
        · have : ¬ b < j + 1 := by omega
          simp [hb, hlt, this]
  rw [outer]

theorem mOutput_eq (pow : α → α → α) (k p : Nat) (hk : k < nGridCapital)
    (hp : p < nGridProductivity) :
    mOutput pow k p
      = (vProductivity (α := α)).getD p 0 * pow ((vGridCapital pow).getD k 0) aalpha := by
  unfold mOutput
  rw [outputLoop_eq, if_pos ⟨hk, hp⟩]

/-- Every productivity value lies in `[0.9792, 1.0212]`. -/
theorem vProductivity_bounds (p : Nat) (hp : p < nGridProductivity) :
    (0.9792 : α) ≤ (vProductivity (α := α)).getD p 0
      ∧ (vProductivity (α := α)).getD p 0 ≤ 1.0212 := by
  unfold nGridProductivity at hp
  interval_cases p <;> norm_num [vProductivity]

/-! ### The shipped calibration over the reals -/

/-- The steady-state capital computed with the real power lies in `[0.1, 0.32]`. -/
theorem capitalSteadyState_bounds :
    (0.1 : ℝ) ≤ capitalSteadyState Real.rpow ∧ capitalSteadyState Real.rpow ≤ 0.32 := by
  unfold capitalSteadyState
  rw [Real.rpow_eq_pow]
  have hx0 : (0 : ℝ) < aalpha * bbeta := by norm_num [aalpha, bbeta]
  have hx1 : (aalpha * bbeta : ℝ) ≤ 1 := by norm_num [aalpha, bbeta]
  have he1 : (1 : ℝ) ≤ 1 / (1 - aalpha) := by norm_num [aalpha]
  have he2 : (1 / (1 - aalpha) : ℝ) ≤ 2 := by norm_num [aalpha]
  constructor
  · have h := Real.rpow_le_rpow_of_exponent_ge hx0 hx1 he2
    rw [Real.rpow_two] at h
    refine le_trans ?_ h
    norm_num [aalpha, bbeta]
  · have h := Real.rpow_le_rpow_of_exponent_ge hx0 hx1 he1
    rw [Real.rpow_one] at h
    refine le_trans h ?_
    norm_num [aalpha, bbeta]

/-- Every grid value lies in `[0.05, 0.34]`. -/
theorem vGridCapital_bounds (i : Nat) (hi : i < nGridCapital) :
    (0.05 : ℝ) ≤ (vGridCapital Real.rpow).getD i 0
      ∧ (vGridCapital Real.rpow).getD i 0 ≤ 0.34 := by
  have hget : (vGridCapital Real.rpow).getD i 0
      = 0.5 * capitalSteadyState Real.rpow + 0.00001 * (i : ℝ) :=
    gridLoop_getD (capitalSteadyState Real.rpow) nGridCapital i hi
  obtain ⟨h1, h2⟩ := capitalSteadyState_bounds
  have hi0 : (0 : ℝ) ≤ (i : ℝ) := Nat.cast_nonneg i
  have hi1 : (i : ℝ) ≤ 17820 := by
    have : i ≤ 17820 := by unfold nGridCapital at hi; omega
    exact_mod_cast this
  rw [hget]
  constructor <;> linarith

/-- The real power `x ^ aalpha` of a grid value lies in `[0.36, 1]`. -/
theorem rpow_aalpha_bounds (x : ℝ) (h1 : 0.05 ≤ x) (h2 : x ≤ 0.34) :
    (0.36 : ℝ) ≤ Real.rpow x aalpha ∧ Real.rpow x aalpha ≤ 1 := by
  rw [Real.rpow_eq_pow]
  have hx0 : (0 : ℝ) < x := by linarith
  have hx1 : x ≤ 1 := by linarith
  have ha0 : (0 : ℝ) ≤ aalpha := by norm_num [aalpha]
  have ha : (aalpha : ℝ) ≤ ((3 : ℕ) : ℝ)⁻¹ := by norm_num [aalpha]
  constructor
  · have h := Real.rpow_le_rpow_of_exponent_ge hx0 hx1 ha
    refine le_trans ?_ h
    have h3 : ((0.36 : ℝ) ^ 3) ^ (((3 : ℕ) : ℝ)⁻¹) = 0.36 :=
      Real.pow_rpow_inv_natCast (by norm_num) (by norm_num)
    rw [← h3]
    apply Real.rpow_le_rpow (by norm_num) _ (by norm_num)
    refine le_trans ?_ h1
    norm_num
  · exact Real.rpow_le_one hx0.le hx1 ha0

/-- Every entry of the output table lies in `[0.352, 1.0212]`. -/
theorem mOutput_bounds (k p : Nat) (hk : k < nGridCapital) (hp : p < nGridProductivity) :
    (0.352 : ℝ) ≤ mOutput Real.rpow k p ∧ mOutput Real.rpow k p ≤ 1.0212 := by
  rw [mOutput_eq Real.rpow k p hk hp]
  obtain ⟨hg1, hg2⟩ := vGridCapital_bounds k hk
  obtain ⟨hr1, hr2⟩ := rpow_aalpha_bounds _ hg1 hg2
  obtain ⟨hv1, hv2⟩ := vProductivity_bounds (α := ℝ) p hp
  constructor
  · nlinarith
  · nlinarith

/-- Consumption at every cell and candidate lies in `[0.012, 0.9712]`. -/
theorem consumption_bounds (k p j : Nat) (hk : k < nGridCapital) (hp : p < nGridProductivity)
    (hj : j < nGridCapital) :
    (0.012 : ℝ) ≤ mOutput Real.rpow k p - (vGridCapital Real.rpow).getD j 0
      ∧ mOutput Real.rpow k p - (vGridCapital Real.rpow).getD j 0 ≤ 0.9712 := by
  obtain ⟨ho1, ho2⟩ := mOutput_bounds k p hk hp
  obtain ⟨hg1, hg2⟩ := vGridCapital_bounds j hj
  constructor <;> linarith


/-! ### Boundedness of the value function and monotonicity of the policy -/

/-- The inner search with no assumption on the candidate values: when the first candidate
beats the best value so far, the loop ends with some `m` accepted, where the values rise
strictly from the start up to `m` and `m` is the last grid point or the value at `m + 1` does
not exceed the value at `m`. -/
theorem innerSearchFrom_exists (c : Params α) (k p : Nat) :
    ∀ (left j : Nat) (s : State α), 0 < left →
      s.valueHighSoFar < valueProvisional c s k p j →
      ∃ m, j ≤ m ∧ m < j + left
        ∧ innerSearchFrom c k p left j s = acceptCandidate c k p m s
        ∧ (∀ i, j ≤ i → i < m → valueProvisional c s k p i < valueProvisional c s k p (i + 1))
        ∧ (m + 1 < j + left → valueProvisional c s k p (m + 1) ≤ valueProvisional c s k p m) := by
  intro left
  induction left with
  | zero => intro j s h; omega
  | succ n ih =>
    intro j s _ h0
    by_cases hnext : 0 < n
        ∧ valueProvisional c s k p j < valueProvisional c s k p (j + 1)
    · obtain ⟨hn, hlt⟩ := hnext
      obtain ⟨m, hjm, hm, hrun, hinc, hdec⟩ :=
        ih (j + 1) (acceptCandidate c k p j s) hn
          (by simpa [valueProvisional_acceptCandidate] using hlt)
      refine ⟨m, by omega, by omega, ?_, ?_, ?_⟩
      · rw [innerSearchFrom, if_pos h0, hrun]
        exact acceptCandidate_acceptCandidate c s k p j m
      · intro i hi him
        rcases Nat.eq_or_lt_of_le hi with hEq | hLt
        · subst hEq; exact hlt
        · simpa [valueProvisional_acceptCandidate] using hinc i (by omega) him
      · intro h
        simpa [valueProvisional_acceptCandidate] using hdec (by omega)
    · refine ⟨j, le_rfl, by omega, ?_, fun i hi him => absurd him (by omega), ?_⟩
      · exact innerSearchFrom_run c k p (n + 1) j s j le_rfl (by omega) h0
          (fun i hi him => absurd him (by omega))
          (fun h => by
            by_contra hc
            exact hnext ⟨by omega, not_le.mp hc⟩)
      · intro h
        by_contra hc
        exact hnext ⟨by omega, not_le.mp hc⟩

/-- The search of one cell, when the cursor is on the grid and its candidate beats the
sentinel: some `m` from the cursor on is accepted last. -/
theorem searchCell_exists (c : Params α) (p k : Nat) (s : State α)
    (hs : s.gridCapitalNextPeriod < c.nGridCapital)
    (h0 : -100000 < valueProvisional c s k p s.gridCapitalNextPeriod) :
    ∃ m, s.gridCapitalNextPeriod ≤ m ∧ m < c.nGridCapital
      ∧ searchCell c p k s
        = { s with
            valueHighSoFar := valueProvisional c s k p m
            capitalChoice := c.vGridCapital m
            gridCapitalNextPeriod := m
            mValueFunctionNew := setCell s.mValueFunctionNew k p (valueProvisional c s k p m)
            mPolicyFunction := setCell s.mPolicyFunction k p (c.vGridCapital m) }
      ∧ (∀ i, s.gridCapitalNextPeriod ≤ i → i < m →
          valueProvisional c s k p i < valueProvisional c s k p (i + 1))
      ∧ (m + 1 < c.nGridCapital →
          valueProvisional c s k p (m + 1) ≤ valueProvisional c s k p m) := by
  obtain ⟨m, h1, h2, h3, h4, h5⟩ := innerSearchFrom_exists c k p
    (c.nGridCapital - s.gridCapitalNextPeriod) s.gridCapitalNextPeriod
    { s with valueHighSoFar := -100000, capitalChoice := c.vGridCapital 0 } (by omega) h0
  refine ⟨m, h1, by omega, ?_, h4, fun h => h5 (by omega)⟩
  rw [searchCell_eq, h3]
  rfl

/-- Bounds on the expected value function after the expectation pass. -/
theorem expectationStep_bounds {c : Params α} {L r B : α} (hc : Calibrated c L r B)
    (s : State α) (hV : ValueBounded c B s.mValueFunction) (k p : Nat)
    (hk : k < c.nGridCapital) (hp : p < c.nGridProductivity) :
    -(r * B) ≤ (expectationStep c s).expectedValueFunction k p
      ∧ (expectationStep c s).expectedValueFunction k p ≤ 0 := by
  rw [expectationStep_eq]
  simp only [hk, hp, and_self, if_true, expectedSum]
  constructor
  · have h1 : ∑ q in Finset.range c.nGridProductivity, c.mTransition p q * (-B)
        ≤ ∑ q in Finset.range c.nGridProductivity, c.mTransition p q * s.mValueFunction k q := by
      apply Finset.sum_le_sum
      intro q hq
      have hq' := Finset.mem_range.mp hq
      exact mul_le_mul_of_nonneg_left (hV k q hk hq').1 (hc.transition_nonneg p q hp hq')
    rw [← Finset.sum_mul] at h1
    have h2 := hc.transition_sum p hp
    have h3 := hc.bound_nonneg
    nlinarith
  · apply Finset.sum_nonpos
    intro q hq
    have hq' := Finset.mem_range.mp hq
    have h1 := hc.transition_nonneg p q hp hq'
    have h2 := (hV k q hk hq').2
    nlinarith

/-- Bounds on the candidate values, given bounds on the expected value function. -/
theorem valueProvisional_bounds {c : Params α} {L r B : α} (hc : Calibrated c L r B)
    (s : State α) (k p j : Nat) (hk : k < c.nGridCapital) (hp : p < c.nGridProductivity)
    (hj : j < c.nGridCapital)
    (hE : -(r * B) ≤ s.expectedValueFunction j p ∧ s.expectedValueFunction j p ≤ 0) :
    -B ≤ valueProvisional c s k p j ∧ valueProvisional c s k p j ≤ 0 := by
  simp only [valueProvisional]
  have h1 := hc.log_lower k p j hk hp hj
  have h2 := hc.log_upper k p j hk hp hj
  have h3 := hc.beta_nonneg
  have h4 := hc.beta_le_one
  have h5 := hc.bound_closed
  obtain ⟨h6, h7⟩ := hE
  constructor
  · nlinarith
  · nlinarith


theorem valueProvisional_congr (c : Params α) (s t : State α)
    (h : t.expectedValueFunction = s.expectedValueFunction) :
    valueProvisional c t = valueProvisional c s := by
  funext k p j
  simp only [valueProvisional, h]

/-- One cell of a row keeps the row invariant, provided the candidate at the cursor beats
the sentinel. -/
theorem rowInv_step {c : Params α} {s t : State α} {p n : Nat}
    (hgrid : ∀ i j, i ≤ j → j < c.nGridCapital → c.vGridCapital i ≤ c.vGridCapital j)
    (h : RowInv c s p n t)
    (h0 : -100000 < valueProvisional c s n p t.gridCapitalNextPeriod) :
    RowInv c s p (n + 1) (searchCell c p n t) := by
  have hf := valueProvisional_congr c s t h.expected
  obtain ⟨m, hm1, hm2, hrun, -, -⟩ := searchCell_exists c p n t h.cursor (by rw [hf]; exact h0)
  rw [hrun, hf]
  refine ⟨h.value, h.expected, hm2, ?_, ?_, ?_, ?_⟩
  · intro a b hb
    show setCell t.mValueFunctionNew n p _ a b = _
    rw [setCell_other _ _ _ _ _ _ (fun hc => hb hc.2)]
    exact h.frameNew a b hb
  · intro a b hb
    show setCell t.mPolicyFunction n p _ a b = _
    rw [setCell_other _ _ _ _ _ _ (fun hc => hb hc.2)]
    exact h.framePolicy a b hb
  · intro k hk
    show ∃ j, j ≤ m ∧ setCell t.mPolicyFunction n p _ k p = _
      ∧ setCell t.mValueFunctionNew n p _ k p = _
    by_cases hkn : k = n
    · subst hkn
      exact ⟨m, le_rfl, setCell_same _ _ _ _, setCell_same _ _ _ _⟩
    · obtain ⟨j, hj, hp1, hp2⟩ := h.written k (by omega)
      refine ⟨j, by omega, ?_, ?_⟩
      · rw [setCell_other _ _ _ _ _ _ (fun hc => hkn hc.1)]; exact hp1
      · rw [setCell_other _ _ _ _ _ _ (fun hc => hkn hc.1)]; exact hp2
  · intro k1 k2 h12 hk2
    show setCell t.mPolicyFunction n p _ k1 p ≤ setCell t.mPolicyFunction n p _ k2 p
    by_cases h2 : k2 = n
    · subst h2
      rw [setCell_same]
      by_cases h1 : k1 = k2
      · subst h1; rw [setCell_same]
      · rw [setCell_other _ _ _ _ _ _ (fun hc => h1 hc.1)]
        obtain ⟨j, hj, hp1, -⟩ := h.written k1 (by omega)
        rw [hp1]
        exact hgrid j m (by omega) hm2
    · have h1 : k1 ≠ n := by omega
      rw [setCell_other _ _ _ _ _ _ (fun hc => h1 hc.1),
        setCell_other _ _ _ _ _ _ (fun hc => h2 hc.1)]
      exact h.mono k1 k2 h12 (by omega)

/-- A whole row of the maximization step, when every candidate value on the grid beats the
sentinel. -/
theorem rowInv_row {c : Params α} (s : State α) (p : Nat)
    (hN : 0 < c.nGridCapital)
    (hgrid : ∀ i j, i ≤ j → j < c.nGridCapital → c.vGridCapital i ≤ c.vGridCapital j)
    (h0 : ∀ k j, k < c.nGridCapital → j < c.nGridCapital →
      -100000 < valueProvisional c s k p j) :
    RowInv c s p c.nGridCapital (maximizationRow c p s) := by
  unfold maximizationRow
  apply forLoop_invariant (fun n t => RowInv c s p n t)
  · exact ⟨rfl, rfl, hN, fun _ _ _ => rfl, fun _ _ _ => rfl,
      fun k hk => absurd hk (Nat.not_lt_zero k), fun k1 k2 _ hk => absurd hk (Nat.not_lt_zero k2)⟩
  · intro n hn t ht
    exact rowInv_step hgrid ht (h0 n _ hn ht.cursor)

/-- The maximization step keeps the new value function in `[-B, 0]` and makes the policy
monotone, when the expected value function is in `[-(r*B), 0]`. -/
theorem stepInv_all {c : Params α} {L r B : α} (hc : Calibrated c L r B) (s : State α)
    (hE : ∀ j p, j < c.nGridCapital → p < c.nGridProductivity →
      -(r * B) ≤ s.expectedValueFunction j p ∧ s.expectedValueFunction j p ≤ 0) :
    StepInv c B s c.nGridProductivity (maximizationStep c s) := by
  unfold maximizationStep
  apply forLoop_invariant (fun n t => StepInv c B s n t)
  · exact ⟨rfl, rfl, fun _ _ _ => rfl, fun _ _ _ => rfl,
      fun k p _ hp => absurd hp (Nat.not_lt_zero p),
      fun p _ _ hp => absurd hp (Nat.not_lt_zero p)⟩
  · intro n hn t ht
    have hf := valueProvisional_congr c s t ht.expected
    have hb : ∀ k j, k < c.nGridCapital → j < c.nGridCapital →
        -B ≤ valueProvisional c t k n j ∧ valueProvisional c t k n j ≤ 0 := by
      intro k j hk hj
      rw [hf]
      exact valueProvisional_bounds hc s k n j hk hn hj (hE j n hj hn)
    have hrow := rowInv_row t n hc.grid_nonempty hc.grid_mono
      (fun k j hk hj => lt_of_lt_of_le hc.bound_sentinel (hb k j hk hj).1)
    refine ⟨hrow.value.trans ht.value, hrow.expected.trans ht.expected, ?_, ?_, ?_, ?_⟩
    · intro a b hb'
      rw [hrow.frameNew a b (by omega)]
      exact ht.frameNew a b (by omega)
    · intro a b hb'
      rw [hrow.framePolicy a b (by omega)]
      exact ht.framePolicy a b (by omega)
    · intro k p hk hp
      by_cases hpn : p = n
      · subst hpn
        obtain ⟨j, hj, -, hv⟩ := hrow.written k hk
        rw [hv]
        exact hb k j hk (lt_of_le_of_lt hj hrow.cursor)
      · rw [hrow.frameNew k p hpn]
        exact ht.bounded k p hk (by omega)
    · intro p k1 k2 hp h12 hk2
      by_cases hpn : p = n
      · subst hpn
        exact hrow.mono k1 k2 h12 hk2
      · rw [hrow.framePolicy k1 p hpn, hrow.framePolicy k2 p hpn]
        exact ht.mono p k1 k2 (by omega) h12 hk2

/-- The policy function is untouched by the expectation pass and by the convergence check. -/
theorem convergenceCheck_policy (c : Params α) (s : State α) :
    (convergenceCheck c s).mPolicyFunction = s.mPolicyFunction := by
  rw [convergenceCheck_eq]
  obtain ⟨-, -, -, -, -, h, -⟩ := checkInv_loops c s
  exact h

theorem convergenceCheck_new (c : Params α) (s : State α) :
    (convergenceCheck c s).mValueFunctionNew = s.mValueFunctionNew := by
  rw [convergenceCheck_eq]
  exact (checkInv_loops c s).1

/-- One pass of the loop body keeps the value function in `[-B, 0]` and leaves a policy
function that is weakly increasing in capital. -/
theorem iterationBody_invariant {c : Params α} {L r B : α} (hc : Calibrated c L r B)
    (s : State α) (hV : ValueBounded c B s.mValueFunction) :
    ValueBounded c B (iterationBody c s).mValueFunction
      ∧ PolicyMonotone c c.nGridProductivity (iterationBody c s).mPolicyFunction := by
  have hE : ∀ j p, j < c.nGridCapital → p < c.nGridProductivity →
      -(r * B) ≤ (expectationStep c s).expectedValueFunction j p
        ∧ (expectationStep c s).expectedValueFunction j p ≤ 0 :=
    fun j p hj hp => expectationStep_bounds hc s hV j p hj hp
  have hstep := stepInv_all hc (expectationStep c s) hE
  constructor
  · intro k p hk hp
    rw [iterationBody_copy c s k p hk hp]
    show -B ≤ (convergenceCheck c (maximizationStep c (expectationStep c s))).mValueFunctionNew k p
      ∧ (convergenceCheck c (maximizationStep c (expectationStep c s))).mValueFunctionNew k p ≤ 0
    rw [convergenceCheck_new]
    exact hstep.bounded k p hk hp
  · show PolicyMonotone c c.nGridProductivity
      (convergenceCheck c (maximizationStep c (expectationStep c s))).mPolicyFunction
    rw [convergenceCheck_policy]
    exact hstep.mono

/-- The invariant holds after any number of passes from the initial state. -/
theorem iterate_invariant {c : Params α} {L r B : α} (hc : Calibrated c L r B) (n : Nat) :
    ValueBounded c B ((iterationBody c)^[n] initialState).mValueFunction
      ∧ PolicyMonotone c c.nGridProductivity
          ((iterationBody c)^[n] initialState).mPolicyFunction := by
  induction n with
  | zero =>
    constructor
    · intro k p _ _
      simp only [Function.iterate_zero, id_eq, initialState]
      exact ⟨by linarith [hc.bound_nonneg], le_rfl⟩
    · intro p k1 k2 _ _ _
      simp only [Function.iterate_zero, id_eq, initialState]
      exact le_rfl
  | succ m ih =>
    rw [Function.iterate_succ_apply']
    exact iterationBody_invariant hc _ ih.1


/-- Every entry of the hard-coded transition matrix lies in `[0, 1]`. -/
theorem mTransition_entry_bounds (p q : Nat) (hp : p < 5) (hq : q < 5) :
    (0 : α) ≤ readTable mTransition p q ∧ readTable (mTransition (α := α)) p q ≤ 1 := by
  interval_cases p <;> interval_cases q <;> norm_num [readTable, mTransition]

/-- Every row of the hard-coded transition matrix sums to at most `1.0001`. -/
theorem mTransition_row_le (p : Nat) (hp : p < 5) :
    ∑ q in Finset.range 5, readTable (mTransition (α := α)) p q ≤ 1.0001 := by
  interval_cases p <;> norm_num [Finset.sum_range_succ, readTable, mTransition]

/-- Lower bound on the real logarithm away from zero. -/
theorem log_lower_bound (x : ℝ) (hx : 0.012 ≤ x) : -83 ≤ Real.log x := by
  have hx0 : 0 < x := by linarith
  have h1 := Real.log_le_sub_one_of_pos (inv_pos.mpr hx0)
  rw [Real.log_inv] at h1
  have h2 : x⁻¹ ≤ (0.012 : ℝ)⁻¹ := inv_anti₀ (by norm_num) hx
  have h3 : (0.012 : ℝ)⁻¹ ≤ 84 := by norm_num
  linarith

theorem shipped_nGridCapital (pow : α → α → α) (log : α → α) :
    (shipped pow log).nGridCapital = nGridCapital := rfl

theorem shipped_nGridProductivity (pow : α → α → α) (log : α → α) :
    (shipped pow log).nGridProductivity = nGridProductivity := rfl

theorem shipped_mOutput (pow : α → α → α) (log : α → α) (k p : Nat) :
    (shipped pow log).mOutput k p = mOutput pow k p := by
  simp only [shipped]

theorem shipped_vGridCapital (pow : α → α → α) (log : α → α) (j : Nat) :
    (shipped pow log).vGridCapital j = (vGridCapital pow).getD j 0 := by
  simp only [shipped]

theorem shipped_log (pow : α → α → α) (log : α → α) : (shipped pow log).log = log := rfl

theorem shipped_bbeta (pow : α → α → α) (log : α → α) : (shipped pow log).bbeta = bbeta := rfl

theorem shipped_mTransition (pow : α → α → α) (log : α → α) :
    (shipped pow log).mTransition = readTable mTransition := rfl

/-- The program as shipped, over the reals, meets the conditions of `Calibrated` with
`log(consumption) ∈ [-83, 0]`, row sums at most `1.0001` and value bound `100`. -/
theorem shipped_calibrated : Calibrated (shipped Real.rpow Real.log) (-83) 1.0001 100 where
  grid_nonempty := by rw [shipped_nGridCapital]; decide
  beta_nonneg := by rw [shipped_bbeta]; norm_num [bbeta]
  beta_le_one := by rw [shipped_bbeta]; norm_num [bbeta]
  transition_nonneg := by
    intro p q hp hq
    rw [shipped_mTransition]
    exact (mTransition_entry_bounds p q hp hq).1
  transition_sum := by
    intro p hp
    rw [shipped_mTransition, shipped_nGridProductivity]
    exact mTransition_row_le p hp
  log_lower := by
    intro k p j hk hp hj
    rw [shipped_nGridCapital] at hk hj
    rw [shipped_nGridProductivity] at hp
    rw [shipped_log, shipped_mOutput, shipped_vGridCapital]
    exact log_lower_bound _ (consumption_bounds k p j hk hp hj).1
  log_upper := by
    intro k p j hk hp hj
    rw [shipped_nGridCapital] at hk hj
    rw [shipped_nGridProductivity] at hp
    rw [shipped_log, shipped_mOutput, shipped_vGridCapital]
    obtain ⟨h1, h2⟩ := consumption_bounds k p j hk hp hj
    exact Real.log_nonpos (by linarith) (by linarith)
  grid_mono := by
    intro i j hij hj
    rw [shipped_nGridCapital] at hj
    rw [shipped_vGridCapital, shipped_vGridCapital]
    have hi : i < nGridCapital := lt_of_le_of_lt hij hj
    have e1 := gridLoop_getD (capitalSteadyState Real.rpow) nGridCapital i hi
    have e2 := gridLoop_getD (capitalSteadyState Real.rpow) nGridCapital j hj
    unfold vGridCapital
    rw [e1, e2]
    have hc : (i : ℝ) ≤ (j : ℝ) := Nat.cast_le.mpr hij
    linarith
  bound_nonneg := by norm_num
  bound_closed := by rw [shipped_bbeta]; norm_num [bbeta]
  bound_sentinel := by norm_num

/-! ### Frame of the maximization step -/

theorem frameOutside_refl {β : Type} (touched : Nat → Nat → Prop) (s : State β) :
    FrameOutside touched s s :=
  ⟨rfl, rfl, fun _ _ _ => rfl, fun _ _ _ => rfl⟩

theorem frameOutside_trans {β : Type} {A B C : Nat → Nat → Prop} {s t u : State β}
    (h1 : FrameOutside A s t) (h2 : FrameOutside B t u)
    (hA : ∀ a b, A a b → C a b) (hB : ∀ a b, B a b → C a b) : FrameOutside C s u := by
  obtain ⟨a1, a2, a3, a4⟩ := h1
  obtain ⟨b1, b2, b3, b4⟩ := h2
  refine ⟨b1.trans a1, b2.trans a2, ?_, ?_⟩
  · intro a b hc
    rw [b3 a b (fun h => hc (hB a b h)), a3 a b (fun h => hc (hA a b h))]
  · intro a b hc
    rw [b4 a b (fun h => hc (hB a b h)), a4 a b (fun h => hc (hA a b h))]

/-- Accepting a candidate for the cell `(k, p)` writes that cell only. -/
theorem acceptCandidate_frame (c : Params α) (k p j : Nat) (s : State α) :
    FrameOutside (fun a b => a = k ∧ b = p) s (acceptCandidate c k p j s) :=
  ⟨rfl, rfl, fun _ _ h => setCell_other _ _ _ _ _ _ h, fun _ _ h => setCell_other _ _ _ _ _ _ h⟩

/-- The inner search for the cell `(k, p)` writes that cell only. -/
theorem innerSearchFrom_frame (c : Params α) (k p : Nat) :
    ∀ (left j : Nat) (s : State α),
      FrameOutside (fun a b => a = k ∧ b = p) s (innerSearchFrom c k p left j s) := by
  intro left
  induction left with
  | zero => intro j s; exact frameOutside_refl _ s
  | succ n ih =>
    intro j s
    rw [innerSearchFrom]
    split
    · exact frameOutside_trans (acceptCandidate_frame c k p j s) (ih (j + 1) _)
        (fun _ _ h => h) (fun _ _ h => h)
    · exact frameOutside_refl _ s

/-- The search of the cell `(k, p)` writes that cell only. -/
theorem searchCell_frame (c : Params α) (p k : Nat) (s : State α) :
    FrameOutside (fun a b => a = k ∧ b = p) s (searchCell c p k s) := by
  rw [searchCell_eq]
  exact frameOutside_trans
    (show FrameOutside (fun a b => a = k ∧ b = p) s
        { s with valueHighSoFar := -100000, capitalChoice := c.vGridCapital 0 } from
      ⟨rfl, rfl, fun _ _ _ => rfl, fun _ _ _ => rfl⟩)
    (innerSearchFrom_frame c k p _ _ _) (fun _ _ h => h) (fun _ _ h => h)

/-- A `for` loop whose pass `i` writes only the cells in `touch i`: between the states after
`m` and after `n ≥ m` passes, only cells touched by a pass `i` with `m ≤ i < n` change. -/
theorem forLoop_frame {β : Type} (touch : Nat → Nat → Nat → Prop)
    (body : Nat → State β → State β)
    (hbody : ∀ i t, FrameOutside (touch i) t (body i t)) (s : State β) (m : Nat) :
    ∀ n, m ≤ n →
      FrameOutside (fun a b => ∃ i, m ≤ i ∧ i < n ∧ touch i a b)
        (forLoop m body s) (forLoop n body s) := by
  intro n
  induction n with
  | zero =>
    intro h
    obtain rfl : m = 0 := by omega
    exact frameOutside_refl _ _
  | succ j ih =>
    intro h
    rcases Nat.eq_or_lt_of_le h with hEq | hLt
    · rw [hEq]; exact frameOutside_refl _ _
    · rw [forLoop_succ]
      exact frameOutside_trans (ih (by omega)) (hbody j _)
        (fun a b ⟨i, h1, h2, h3⟩ => ⟨i, h1, by omega, h3⟩)
        (fun a b h3 => ⟨j, by omega, by omega, h3⟩)

/-- Between the entries to cells `m ≤ n` of row `p`, only the cells `(a, p)` with
`m ≤ a < n` are written. -/
theorem rowPrefix_frame (c : Params α) (p : Nat) (s : State α) (m n : Nat) (h : m ≤ n) :
    FrameOutside (fun a b => m ≤ a ∧ a < n ∧ b = p) (rowPrefix c p s m) (rowPrefix c p s n) := by
  have := forLoop_frame (fun i a b => a = i ∧ b = p)
    (fun nCapital s => searchCell c p nCapital s) (fun i t => searchCell_frame c p i t)
    { s with gridCapitalNextPeriod := 0 } m n h
  exact frameOutside_trans (frameOutside_refl (fun _ _ => False) _) this
    (fun _ _ hf => hf.elim)
    (fun a b ⟨i, h1, h2, h3, h4⟩ => ⟨h3 ▸ h1, h3 ▸ h2, h4⟩)

theorem maximizationRow_eq_rowPrefix (c : Params α) (p : Nat) (s : State α) :
    maximizationRow c p s = rowPrefix c p s c.nGridCapital := rfl

theorem maximizationStep_eq_stepPrefix (c : Params α) (s : State α) :
    maximizationStep c s = stepPrefix c s c.nGridProductivity := rfl

/-- Row `p` writes only cells of column `p` on the grid. -/
theorem maximizationRow_frame (c : Params α) (p : Nat) (s : State α) :
    FrameOutside (fun a b => a < c.nGridCapital ∧ b = p) s (maximizationRow c p s) := by
  rw [maximizationRow_eq_rowPrefix]
  have h0 : FrameOutside (fun _ _ => False) s (rowPrefix c p s 0) :=
    ⟨rfl, rfl, fun _ _ _ => rfl, fun _ _ _ => rfl⟩
  exact frameOutside_trans h0 (rowPrefix_frame c p s 0 c.nGridCapital (Nat.zero_le _))
    (fun _ _ hf => hf.elim) (fun a b ⟨_, h2, h3⟩ => ⟨h2, h3⟩)

/-- Between the entries to rows `m ≤ n` of the maximization step, only cells of the columns
`m ≤ b < n` are written. -/
theorem stepPrefix_frame (c : Params α) (s : State α) (m n : Nat) (h : m ≤ n) :
    FrameOutside (fun a b => a < c.nGridCapital ∧ m ≤ b ∧ b < n)
      (stepPrefix c s m) (stepPrefix c s n) := by
  have := forLoop_frame (fun i a b => a < c.nGridCapital ∧ b = i)
    (fun nProductivity s => maximizationRow c nProductivity s)
    (fun i t => maximizationRow_frame c i t) s m n h
  exact frameOutside_trans (frameOutside_refl (fun _ _ => False) _) this
    (fun _ _ hf => hf.elim)
    (fun a b ⟨i, h1, h2, h3, h4⟩ => ⟨h3, h4 ▸ h1, h4 ▸ h2⟩)

/-- The state entering the cell `(k, p)` has the value function and the expected value
function of the step's entry state, and the cell `(k, p)` itself is still as on entry. -/
theorem cellEntry_frame (c : Params α) (s : State α) (p k : Nat) :
    (cellEntry c s p k).mValueFunction = s.mValueFunction
      ∧ (cellEntry c s p k).expectedValueFunction = s.expectedValueFunction
      ∧ (cellEntry c s p k).mValueFunctionNew k p = s.mValueFunctionNew k p
      ∧ (cellEntry c s p k).mPolicyFunction k p = s.mPolicyFunction k p := by
  have h1 : FrameOutside (fun a b => a < c.nGridCapital ∧ 0 ≤ b ∧ b < p) s (stepPrefix c s p) :=
    stepPrefix_frame c s 0 p (Nat.zero_le _)
  have h2 : FrameOutside (fun a b => 0 ≤ a ∧ a < k ∧ b = p) (stepPrefix c s p)
      (rowPrefix c p (stepPrefix c s p) k) :=
    frameOutside_trans
      (show FrameOutside (fun _ _ => False) (stepPrefix c s p)
          (rowPrefix c p (stepPrefix c s p) 0) from
        ⟨rfl, rfl, fun _ _ _ => rfl, fun _ _ _ => rfl⟩)
      (rowPrefix_frame c p (stepPrefix c s p) 0 k (Nat.zero_le _))
      (fun _ _ hf => hf.elim) (fun _ _ h => h)
  have h3 : FrameOutside (fun a b => (a < c.nGridCapital ∧ b < p) ∨ (a < k ∧ b = p)) s
      (cellEntry c s p k) :=
    frameOutside_trans h1 h2 (fun a b ⟨x, _, y⟩ => Or.inl ⟨x, y⟩)
      (fun a b ⟨_, x, y⟩ => Or.inr ⟨x, y⟩)
  obtain ⟨e1, e2, e3, e4⟩ := h3
  have hne : ¬ ((k < c.nGridCapital ∧ p < p) ∨ (k < k ∧ p = p)) := by
    rintro (⟨_, h⟩ | ⟨h, _⟩) <;> omega
  exact ⟨e1, e2, e3 k p hne, e4 k p hne⟩

/-- The cell `(k, p)` after the whole maximization step is the cell as its own search leaves
it: no other search of the step writes it. -/
theorem maximizationStep_cell (c : Params α) (s : State α) (p k : Nat)
    (hk : k < c.nGridCapital) (hp : p < c.nGridProductivity) :
    (maximizationStep c s).mValueFunctionNew k p
        = (searchCell c p k (cellEntry c s p k)).mValueFunctionNew k p
      ∧ (maximizationStep c s).mPolicyFunction k p
        = (searchCell c p k (cellEntry c s p k)).mPolicyFunction k p := by
  have e1 : searchCell c p k (cellEntry c s p k) = rowPrefix c p (stepPrefix c s p) (k + 1) := rfl
  have e2 : rowPrefix c p (stepPrefix c s p) c.nGridCapital = stepPrefix c s (p + 1) := rfl
  have h1 := rowPrefix_frame c p (stepPrefix c s p) (k + 1) c.nGridCapital (by omega)
  have h2 := stepPrefix_frame c s (p + 1) c.nGridProductivity (by omega)
  rw [e2] at h1
  rw [maximizationStep_eq_stepPrefix, e1]
  obtain ⟨-, -, a3, a4⟩ := h1
  obtain ⟨-, -, b3, b4⟩ := h2
  have hn1 : ¬ (k + 1 ≤ k ∧ k < c.nGridCapital ∧ p = p) := by omega
  have hn2 : ¬ (k < c.nGridCapital ∧ p + 1 ≤ p ∧ p < c.nGridProductivity) := by omega
  exact ⟨(b3 k p hn2).trans (a3 k p hn1), (b4 k p hn2).trans (a4 k p hn1)⟩


/-! ### Cells the search does not write -/

/-- When the candidate at the cursor does not beat the sentinel, the search of the cell only
resets `valueHighSoFar` and `capitalChoice`. -/
theorem searchCell_stop (c : Params α) (p k : Nat) (s : State α)
    (h0 : valueProvisional c s k p s.gridCapitalNextPeriod ≤ -100000) :
    searchCell c p k s
      = { s with valueHighSoFar := -100000, capitalChoice := c.vGridCapital 0 } := by
  rw [searchCell_eq]
  exact innerSearchFrom_stop c k p _ _ _ (fun _ => h0)

/-- The new value function and the policy function after a pass of the loop body are those
the maximization step leaves. -/
theorem iterationBody_cells (c : Params α) (s : State α) :
    (iterationBody c s).mValueFunctionNew
        = (maximizationStep c (expectationStep c s)).mValueFunctionNew
      ∧ (iterationBody c s).mPolicyFunction
        = (maximizationStep c (expectationStep c s)).mPolicyFunction :=
  ⟨convergenceCheck_new c _, convergenceCheck_policy c _⟩

theorem expectationStep_cells (c : Params α) (s : State α) :
    (expectationStep c s).mValueFunctionNew = s.mValueFunctionNew
      ∧ (expectationStep c s).mPolicyFunction = s.mPolicyFunction := by
  rw [expectationStep_eq]
  exact ⟨rfl, rfl⟩


/-! ### Candidates examined by the search -/

theorem innerSearchExamined_stop (c : Params α) (k p left j : Nat) (s : State α)
    (h : valueProvisional c s k p j ≤ s.valueHighSoFar) :
    innerSearchExamined c k p left j s = if left = 0 then [] else [j] := by
  cases left with
  | zero => rfl
  | succ n => simp [innerSearchExamined, not_lt.mpr h]

/-- The inner search with its examined candidates: when the first candidate beats the best
value so far, the loop accepts `j, …, m`, where the values rise strictly up to `m` and do not
rise at `m + 1`, and it examines exactly the candidates from `j` to `m + 1`, or to `m` when
`m` is the last of the `left` candidates. -/
theorem innerSearch_trace (c : Params α) (k p : Nat) :
    ∀ (left j : Nat) (s : State α), 0 < left →
      s.valueHighSoFar < valueProvisional c s k p j →
      ∃ m, j ≤ m ∧ m < j + left
        ∧ innerSearchFrom c k p left j s = acceptCandidate c k p m s
        ∧ (∀ i, j ≤ i → i < m → valueProvisional c s k p i < valueProvisional c s k p (i + 1))
        ∧ (m + 1 < j + left → valueProvisional c s k p (m + 1) ≤ valueProvisional c s k p m)
        ∧ innerSearchExamined c k p left j s = List.range' j (min (m + 2) (j + left) - j) := by
  intro left
  induction left with
  | zero => intro j s h; omega
  | succ n ih =>
    intro j s _ h0
    by_cases hnext : 0 < n
        ∧ valueProvisional c s k p j < valueProvisional c s k p (j + 1)
    · obtain ⟨hn, hlt⟩ := hnext
      obtain ⟨m, hjm, hm, hrun, hinc, hdec, hex⟩ :=
        ih (j + 1) (acceptCandidate c k p j s) hn
          (by simpa [valueProvisional_acceptCandidate] using hlt)
      refine ⟨m, by omega, by omega, ?_, ?_, ?_, ?_⟩
      · rw [innerSearchFrom, if_pos h0, hrun]
        exact acceptCandidate_acceptCandidate c s k p j m
      · intro i hi him
        rcases Nat.eq_or_lt_of_le hi with hEq | hLt
        · subst hEq; exact hlt
        · simpa [valueProvisional_acceptCandidate] using hinc i (by omega) him
      · intro h
        simpa [valueProvisional_acceptCandidate] using hdec (by omega)
      · rw [innerSearchExamined, if_pos h0, hex]
        have e : min (m + 2) (j + (n + 1)) - j = (min (m + 2) (j + 1 + n) - (j + 1)) + 1 := by
          omega
        rw [e, List.range'_succ]
    · have hstop : 0 < n →
          valueProvisional c (acceptCandidate c k p j s) k p (j + 1)
            ≤ (acceptCandidate c k p j s).valueHighSoFar := by
        intro hn
        rw [valueProvisional_acceptCandidate]
        by_contra hc
        exact hnext ⟨hn, not_le.mp hc⟩
      refine ⟨j, le_rfl, by omega, ?_, fun i hi him => absurd him (by omega), ?_, ?_⟩
      · rw [innerSearchFrom, if_pos h0, innerSearchFrom_stop c k p n (j + 1) _ hstop]
      · intro h
        exact hstop (by omega)
      · rw [innerSearchExamined, if_pos h0]
        cases n with
        | zero =>
          have e : min (j + 2) (j + (0 + 1)) - j = 1 := by omega
          rw [e]; rfl
        | succ n' =>
          rw [innerSearchExamined_stop c k p (n' + 1) (j + 1) _ (hstop (Nat.succ_pos n'))]
          have e : min (j + 2) (j + (n' + 1 + 1)) - j = 2 := by omega
          rw [e]; rfl

theorem searchCellExamined_eq (c : Params α) (p k : Nat) (s : State α) :
    searchCellExamined c p k s
      = innerSearchExamined c k p (c.nGridCapital - s.gridCapitalNextPeriod)
          s.gridCapitalNextPeriod
          { s with valueHighSoFar := -100000, capitalChoice := c.vGridCapital 0 } := by
  simp only [searchCellExamined, neg_sentinel_eq]

/-- The search of a cell whose cursor is on the grid and whose first candidate beats the
sentinel, with its examined candidates. -/
theorem searchCell_trace (c : Params α) (p k : Nat) (s : State α)
    (hs : s.gridCapitalNextPeriod < c.nGridCapital)
    (h0 : -100000 < valueProvisional c s k p s.gridCapitalNextPeriod) :
    ∃ m, s.gridCapitalNextPeriod ≤ m ∧ m < c.nGridCapital
      ∧ searchCell c p k s
        = { s with
            valueHighSoFar := valueProvisional c s k p m
            capitalChoice := c.vGridCapital m
            gridCapitalNextPeriod := m
            mValueFunctionNew := setCell s.mValueFunctionNew k p (valueProvisional c s k p m)
            mPolicyFunction := setCell s.mPolicyFunction k p (c.vGridCapital m) }
      ∧ (∀ i, s.gridCapitalNextPeriod ≤ i → i < m →
          valueProvisional c s k p i < valueProvisional c s k p (i + 1))
      ∧ (m + 1 < c.nGridCapital →
          valueProvisional c s k p (m + 1) ≤ valueProvisional c s k p m)
      ∧ searchCellExamined c p k s
        = List.range' s.gridCapitalNextPeriod
            (min (m + 2) c.nGridCapital - s.gridCapitalNextPeriod) := by
  obtain ⟨m, h1, h2, h3, h4, h5, h6⟩ := innerSearch_trace c k p
    (c.nGridCapital - s.gridCapitalNextPeriod) s.gridCapitalNextPeriod
    { s with valueHighSoFar := -100000, capitalChoice := c.vGridCapital 0 } (by omega) h0
  refine ⟨m, h1, by omega, ?_, h4, fun h => h5 (by omega), ?_⟩
  · rw [searchCell_eq, h3]
    rfl
  · rw [searchCellExamined_eq, h6]
    have e : s.gridCapitalNextPeriod + (c.nGridCapital - s.gridCapitalNextPeriod)
        = c.nGridCapital := by omega
    simp only [e]

/-- One cell of a row: the cursor does not move back, stays on the grid, and the number of
candidates examined is at most two more than the advance of the cursor. -/
theorem searchCell_cost (c : Params α) (p k : Nat) (s : State α) :
    s.gridCapitalNextPeriod ≤ (searchCell c p k s).gridCapitalNextPeriod
      ∧ (s.gridCapitalNextPeriod < c.nGridCapital →
          (searchCell c p k s).gridCapitalNextPeriod < c.nGridCapital)
      ∧ (searchCellExamined c p k s).length + s.gridCapitalNextPeriod
          ≤ (searchCell c p k s).gridCapitalNextPeriod + 2 := by
  by_cases h0 : -100000 < valueProvisional c s k p s.gridCapitalNextPeriod
  · by_cases hs : s.gridCapitalNextPeriod < c.nGridCapital
    · obtain ⟨m, h1, h2, h3, -, -, h6⟩ := searchCell_trace c p k s hs h0
      rw [h3, h6, List.length_range']
      refine ⟨h1, fun _ => h2, ?_⟩
      show min (m + 2) c.nGridCapital - s.gridCapitalNextPeriod + s.gridCapitalNextPeriod
        ≤ m + 2
      omega
    · have hleft : c.nGridCapital - s.gridCapitalNextPeriod = 0 := by omega
      rw [searchCell_eq, searchCellExamined_eq, hleft]
      refine ⟨?_, fun h => absurd h hs, ?_⟩
      · show s.gridCapitalNextPeriod ≤ s.gridCapitalNextPeriod
        exact le_rfl
      · show 0 + s.gridCapitalNextPeriod ≤ s.gridCapitalNextPeriod + 2
        omega
  · have h0' := not_lt.mp h0
    rw [searchCell_stop c p k s h0', searchCellExamined_eq,
      innerSearchExamined_stop c k p (c.nGridCapital - s.gridCapitalNextPeriod)
        s.gridCapitalNextPeriod
        { s with valueHighSoFar := -100000, capitalChoice := c.vGridCapital 0 } h0']
    refine ⟨le_rfl, fun h => h, ?_⟩
    show (if c.nGridCapital - s.gridCapitalNextPeriod = 0 then [] else
      [s.gridCapitalNextPeriod]).length + s.gridCapitalNextPeriod ≤ s.gridCapitalNextPeriod + 2
    split
    · simp
    · simp only [List.length_singleton]; omega

/-- Cursor and cost along a row: on entry to cell `n` the cursor is at most `N_k - 1`, and
the candidates examined for the cells before `n` number at most the cursor plus `2 n`. -/
theorem rowPrefix_cost (c : Params α) (p : Nat) (s : State α) (n : Nat) :
    (rowPrefix c p s n).gridCapitalNextPeriod ≤ c.nGridCapital - 1
      ∧ ∑ k in Finset.range n, (searchCellExamined c p k (rowPrefix c p s k)).length
          ≤ (rowPrefix c p s n).gridCapitalNextPeriod + 2 * n := by
  induction n with
  | zero =>
    refine ⟨?_, by simp⟩
    show 0 ≤ c.nGridCapital - 1
    exact Nat.zero_le _
  | succ m ih =>
    obtain ⟨ih1, ih2⟩ := ih
    have e : rowPrefix c p s (m + 1) = searchCell c p m (rowPrefix c p s m) := rfl
    obtain ⟨c1, c2, c3⟩ := searchCell_cost c p m (rowPrefix c p s m)
    rw [e, Finset.sum_range_succ]
    constructor
    · by_cases hN : (rowPrefix c p s m).gridCapitalNextPeriod < c.nGridCapital
      · have := c2 hN
        omega
      · have hleft : c.nGridCapital - (rowPrefix c p s m).gridCapitalNextPeriod = 0 := by omega
        have hsame : (searchCell c p m (rowPrefix c p s m)).gridCapitalNextPeriod
            = (rowPrefix c p s m).gridCapitalNextPeriod := by
          rw [searchCell_eq, hleft]; rfl
        omega
    · omega


/-! ### Every cell is written; the first pass -/

/-- On entry to any cell of a non-empty grid the cursor is on the grid. -/
theorem cellEntry_cursor (c : Params α) (s : State α) (p k : Nat) (hN : 0 < c.nGridCapital) :
    (cellEntry c s p k).gridCapitalNextPeriod < c.nGridCapital := by
  have := (rowPrefix_cost c p (stepPrefix c s p) k).1
  unfold cellEntry
  omega

theorem cellEntry_valueProvisional (c : Params α) (s : State α) (p k : Nat) :
    valueProvisional c (cellEntry c s p k) = valueProvisional c s :=
  valueProvisional_congr c s _ (cellEntry_frame c s p k).2.1

/-- Under the conditions of `Calibrated`, in a pass of the loop body entered with a value
function in `[-B, 0]`: the first candidate examined for every cell beats the sentinel, and
the cell receives the value of a candidate `j` from the cursor on, computed from this pass's
expected value function, together with the grid value at `j`. -/
theorem cell_written {c : Params α} {L r B : α} (hc : Calibrated c L r B) (S : State α)
    (hV : ValueBounded c B S.mValueFunction) (p k : Nat)
    (hk : k < c.nGridCapital) (hp : p < c.nGridProductivity) :
    -100000 < valueProvisional c (cellEntry c (expectationStep c S) p k) k p
        (cellEntry c (expectationStep c S) p k).gridCapitalNextPeriod
      ∧ ∃ j, (cellEntry c (expectationStep c S) p k).gridCapitalNextPeriod ≤ j
        ∧ j < c.nGridCapital
        ∧ (iterationBody c S).mValueFunctionNew k p
            = valueProvisional c (expectationStep c S) k p j
        ∧ (iterationBody c S).mPolicyFunction k p = c.vGridCapital j := by
  have hcur := cellEntry_cursor c (expectationStep c S) p k hc.grid_nonempty
  have hf := cellEntry_valueProvisional c (expectationStep c S) p k
  have hb := valueProvisional_bounds hc (expectationStep c S) k p
    (cellEntry c (expectationStep c S) p k).gridCapitalNextPeriod hk hp hcur
    (expectationStep_bounds hc S hV _ p hcur hp)
  have h0 : -100000 < valueProvisional c (cellEntry c (expectationStep c S) p k) k p
      (cellEntry c (expectationStep c S) p k).gridCapitalNextPeriod := by
    rw [hf]
    exact lt_of_lt_of_le hc.bound_sentinel hb.1
  obtain ⟨m, h1, h2, h3, -, -, -⟩ :=
    searchCell_trace c p k (cellEntry c (expectationStep c S) p k) hcur h0
  obtain ⟨m1, m2⟩ := maximizationStep_cell c (expectationStep c S) p k hk hp
  obtain ⟨i1, i2⟩ := iterationBody_cells c S
  refine ⟨h0, m, h1, h2, ?_, ?_⟩
  · rw [i1, m1, h3, ← hf]
    exact setCell_same _ _ _ _
  · rw [i2, m2, h3]
    exact setCell_same _ _ _ _

/-- A row in which, for every capital index, the candidate `0` beats the sentinel and the
candidate `1` does not beat the candidate `0`: the cursor is `0` on entry to every cell. -/
theorem rowPrefix_cursor_zero (c : Params α) (p : Nat) (s : State α)
    (h0 : ∀ k, k < c.nGridCapital → -100000 < valueProvisional c s k p 0)
    (h1 : ∀ k, k < c.nGridCapital → valueProvisional c s k p 1 ≤ valueProvisional c s k p 0) :
    ∀ n, n ≤ c.nGridCapital → (rowPrefix c p s n).gridCapitalNextPeriod = 0 := by
  intro n
  induction n with
  | zero => intro _; rfl
  | succ m ih =>
    intro hm
    have hcur := ih (by omega)
    have hE : (rowPrefix c p s m).expectedValueFunction = s.expectedValueFunction :=
      (rowPrefix_frame c p s 0 m (Nat.zero_le _)).2.1
    have hf := valueProvisional_congr c s (rowPrefix c p s m) hE
    have e : rowPrefix c p s (m + 1) = searchCell c p m (rowPrefix c p s m) := rfl
    rw [e, searchCell_run c p m 0 (rowPrefix c p s m) (by omega) (by omega)
      (by rw [hcur, hf]; exact h0 m (by omega))
      (fun i _ hi => absurd hi (Nat.not_lt_zero i))
      (fun _ => by rw [hf]; exact h1 m (by omega))]

/-- A maximization step in which, for every cell, the candidate `0` beats the sentinel and
the candidate `1` does not beat the candidate `0`: the cursor is `0` on entry to every cell,
and every cell receives the value of the candidate `0` and the first grid value. -/
theorem maximizationStep_stay (c : Params α) (s : State α) (hN : 0 < c.nGridCapital)
    (h0 : ∀ k p, k < c.nGridCapital → p < c.nGridProductivity →
      -100000 < valueProvisional c s k p 0)
    (h1 : ∀ k p, k < c.nGridCapital → p < c.nGridProductivity →
      valueProvisional c s k p 1 ≤ valueProvisional c s k p 0)
    (p k : Nat) (hp : p < c.nGridProductivity) :
    (k ≤ c.nGridCapital → (cellEntry c s p k).gridCapitalNextPeriod = 0)
      ∧ (k < c.nGridCapital →
          (maximizationStep c s).mValueFunctionNew k p = valueProvisional c s k p 0
            ∧ (maximizationStep c s).mPolicyFunction k p = c.vGridCapital 0) := by
  have hE : (stepPrefix c s p).expectedValueFunction = s.expectedValueFunction :=
    (stepPrefix_frame c s 0 p (Nat.zero_le _)).2.1
  have hf := valueProvisional_congr c s (stepPrefix c s p) hE
  have hcur : ∀ n, n ≤ c.nGridCapital → (cellEntry c s p n).gridCapitalNextPeriod = 0 :=
    rowPrefix_cursor_zero c p (stepPrefix c s p)
      (fun a ha => by rw [hf]; exact h0 a p ha hp)
      (fun a ha => by rw [hf]; exact h1 a p ha hp)
  refine ⟨hcur k, fun hk => ?_⟩
  have hc0 := hcur k (by omega)
  have hg := cellEntry_valueProvisional c s p k
  obtain ⟨m1, m2⟩ := maximizationStep_cell c s p k hk hp
  have hrun := searchCell_run c p k 0 (cellEntry c s p k) (by omega) hN
    (by rw [hc0, hg]; exact h0 k p hk hp)
    (fun i _ hi => absurd hi (Nat.not_lt_zero i))
    (fun _ => by rw [hg]; exact h1 k p hk hp)
  rw [m1, m2, hrun, ← hg]
  exact ⟨setCell_same _ _ _ _, setCell_same _ _ _ _⟩

/-- After the expectation pass on the initial state the expected value function is zero. -/
theorem expectationStep_initial (c : Params α) (a b : Nat) :
    (expectationStep c initialState).expectedValueFunction a b = 0 := by
  rw [expectationStep_eq]
  show (if a < c.nGridCapital ∧ b < c.nGridProductivity then
      expectedSum c (fun _ _ => 0) a b c.nGridProductivity else 0) = 0
  split
  · simp [expectedSum]
  · rfl

/-- The candidate values of the first pass. -/
theorem valueProvisional_initial (c : Params α) (k p j : Nat) :
    valueProvisional c (expectationStep c initialState) k p j
      = (1 - c.bbeta) * c.log (c.mOutput k p - c.vGridCapital j) := by
  simp only [valueProvisional, expectationStep_initial, mul_zero, add_zero]


/-- In the first pass of the shipped program every candidate value lies in `[-100, 0]` and
none exceeds the value of the candidate `0`. -/
theorem first_pass_values (k p j : Nat) (hk : k < nGridCapital) (hp : p < nGridProductivity)
    (hj : j < nGridCapital) :
    -100000 < valueProvisional (shipped Real.rpow Real.log)
        (expectationStep (shipped Real.rpow Real.log) initialState) k p j
      ∧ valueProvisional (shipped Real.rpow Real.log)
          (expectationStep (shipped Real.rpow Real.log) initialState) k p j
        ≤ valueProvisional (shipped Real.rpow Real.log)
            (expectationStep (shipped Real.rpow Real.log) initialState) k p 0 := by
  rw [valueProvisional_initial, valueProvisional_initial, shipped_bbeta, shipped_log,
    shipped_mOutput, shipped_vGridCapital, shipped_vGridCapital]
  have h0 : (0 : ℕ) < nGridCapital := by decide
  obtain ⟨c1, -⟩ := consumption_bounds k p j hk hp hj
  have hlow := log_lower_bound _ c1
  have hg0 := gridLoop_getD (capitalSteadyState Real.rpow) nGridCapital 0 h0
  have hgj := gridLoop_getD (capitalSteadyState Real.rpow) nGridCapital j hj
  have hgrid : (vGridCapital Real.rpow).getD 0 0 ≤ (vGridCapital Real.rpow).getD j 0 := by
    unfold vGridCapital
    rw [hg0, hgj]
    have : (0 : ℝ) ≤ (j : ℝ) := Nat.cast_nonneg j
    simp only [Nat.cast_zero, mul_zero, add_zero]
    linarith
  have hlog : Real.log (mOutput Real.rpow k p - (vGridCapital Real.rpow).getD j 0)
      ≤ Real.log (mOutput Real.rpow k p - (vGridCapital Real.rpow).getD 0 0) :=
    (Real.log_le_log_iff (by linarith) (by linarith)).mpr (by linarith)
  have hb : (0 : ℝ) ≤ 1 - bbeta := by norm_num [bbeta]
  have hb1 : (1 - bbeta : ℝ) ≤ 1 := by norm_num [bbeta]
  constructor
  · nlinarith
  · exact mul_le_mul_of_nonneg_left hlog hb


end Lemmas

/-! ## Claims -/

section Claims

variable {α : Type} [LinearOrderedField α]

/-- C1 (expectation step).  For every value function `V` held in the state on entry, after
the expectation pass every cell `(k, p)` with `k < nGridCapital`, `p < nGridProductivity` (5 in
the program) holds `Σ_{q < nGridProductivity} mTransition[p][q] * V[k][q]`, computed from the
value function as it stood on entry, and the pass changes nothing but
`expectedValueFunction`; in particular the value function is unchanged. -/
theorem expectationStep_spec (c : Params α) (s : State α) (k p : Nat)
    (hk : k < c.nGridCapital) (hp : p < c.nGridProductivity) :
    (expectationStep c s).expectedValueFunction k p
        = ∑ q in Finset.range c.nGridProductivity, c.mTransition p q * s.mValueFunction k q
      ∧ (expectationStep c s).mValueFunction = s.mValueFunction
      ∧ expectationStep c s
          = { s with expectedValueFunction := (expectationStep c s).expectedValueFunction } := by
  rw [expectationStep_eq]
  simp [hk, hp, expectedSum]

/-- Witness for C1 on the three-point instance: cell `(1, 0)` receives
`1/2 * 3 + 1/2 * 5 = 4`. -/
theorem expectationStep_spec_witness :
    (1 < demoParams.nGridCapital ∧ 0 < demoParams.nGridProductivity)
    ∧ (expectationStep demoParams demoState).expectedValueFunction 1 0 = 4
    ∧ (expectationStep demoParams demoState).mValueFunction = demoState.mValueFunction := by
  have h := expectationStep_spec demoParams demoState 1 0 (by decide) (by decide)
  refine ⟨⟨by decide, by decide⟩, ?_, h.2.1⟩
  rw [h.1]
  norm_num [Finset.sum_range_succ, demoParams, demoState, readTable]

/-- C3 (convergence check).  With at least one capital point and one productivity state (17820
and 5 in the program), after lines 150-160 `maxDifference` is the maximum over all cells
`(k, p)` of `|V[k][p] - V'[k][p]|`, taken with the value function `V` as it stood before the
copy; it is therefore non-negative (never the sentinel `-100000`); every cell of
`mValueFunction` holds the corresponding cell of `mValueFunctionNew`; and `mValueFunctionNew`
is unchanged. -/
theorem convergenceCheck_spec (c : Params α) (s : State α)
    (hK : 0 < c.nGridCapital) (hP : 0 < c.nGridProductivity) :
    (convergenceCheck c s).maxDifference
        = (Finset.range c.nGridCapital ×ˢ Finset.range c.nGridProductivity).sup'
            (Finset.Nonempty.product (Finset.nonempty_range_iff.mpr (Nat.pos_iff_ne_zero.mp hK))
              (Finset.nonempty_range_iff.mpr (Nat.pos_iff_ne_zero.mp hP)))
            (fun x => |s.mValueFunction x.1 x.2 - s.mValueFunctionNew x.1 x.2|)
      ∧ 0 ≤ (convergenceCheck c s).maxDifference
      ∧ (∀ k p, k < c.nGridCapital → p < c.nGridProductivity →
          (convergenceCheck c s).mValueFunction k p = s.mValueFunctionNew k p)
      ∧ (convergenceCheck c s).mValueFunctionNew = s.mValueFunctionNew := by
  rw [convergenceCheck_eq]
  obtain ⟨hW, hD, -, hle, hmax, -⟩ := checkInv_loops c s
  have hex : ∃ a b, (a < c.nGridCapital ∧ b < c.nGridProductivity) ∧
      (forLoop c.nGridProductivity (fun nProductivity s =>
        forLoop c.nGridCapital (fun nCapital s => diffCell nProductivity nCapital s) s)
        { s with diffHighSoFar := -100000 }).diffHighSoFar
        = |s.mValueFunction a b - s.mValueFunctionNew a b| := by
    rcases hmax with ⟨_, hnone⟩ | h
    · exact absurd ⟨hK, hP⟩ (hnone 0 0)
    · exact h
  obtain ⟨a, b, hab, he⟩ := hex
  refine ⟨?_, ?_, fun k p hk hp => hD k p ⟨hk, hp⟩, hW⟩
  · apply le_antisymm
    · show _ ≤ _
      simp only []
      rw [he]
      exact Finset.le_sup' (fun x : Nat × Nat =>
        |s.mValueFunction x.1 x.2 - s.mValueFunctionNew x.1 x.2|)
        (show ((a, b) : Nat × Nat)
            ∈ Finset.range c.nGridCapital ×ˢ Finset.range c.nGridProductivity from
          Finset.mem_product.mpr ⟨Finset.mem_range.mpr hab.1, Finset.mem_range.mpr hab.2⟩)
    · apply Finset.sup'_le
      intro x hx
      obtain ⟨h1, h2⟩ := Finset.mem_product.mp hx
      exact hle x.1 x.2 ⟨Finset.mem_range.mp h1, Finset.mem_range.mp h2⟩
  · show 0 ≤ _
    simp only []
    rw [he]
    exact abs_nonneg _

/-- Witness for C3 on the three-point instance: the differences are `0, 0, 0, 1, 2, 0`, so
`maxDifference` becomes `2`, and cell `(2, 0)` of the value function becomes `6`. -/
theorem convergenceCheck_spec_witness :
    (0 < demoParams.nGridCapital ∧ 0 < demoParams.nGridProductivity)
    ∧ (convergenceCheck demoParams demoState).maxDifference = 2
    ∧ (convergenceCheck demoParams demoState).mValueFunction 2 0 = 6 := by
  have h := convergenceCheck_spec demoParams demoState (by decide) (by decide)
  refine ⟨⟨by decide, by decide⟩, ?_, ?_⟩
  · rw [h.1]
    apply le_antisymm
    · apply Finset.sup'_le
      intro x hx
      obtain ⟨h1, h2⟩ := Finset.mem_product.mp hx
      have h1' : x.1 < 3 := Finset.mem_range.mp h1
      have h2' : x.2 < 2 := Finset.mem_range.mp h2
      obtain ⟨a, b⟩ := x
      simp only at h1' h2' ⊢
      interval_cases a <;> interval_cases b <;>
        norm_num [demoState, readTable, abs_le]
    · have := Finset.le_sup' (fun x : Nat × Nat =>
        |demoState.mValueFunction x.1 x.2 - demoState.mValueFunctionNew x.1 x.2|)
        (show ((2, 0) : Nat × Nat) ∈
            Finset.range demoParams.nGridCapital ×ˢ Finset.range demoParams.nGridProductivity
          by decide)
      refine le_trans ?_ this
      norm_num [demoState, readTable]
  · rw [h.2.2.1 2 0 (by decide) (by decide)]
    norm_num [demoState, readTable]

/-- C4 (stopping rule).  With the tolerance `0.0000001` and the initial state of the program
(`maxDifference = 10`): whenever the `while` loop returns a state, it has made some number
`n ≥ 1` of passes, the sup-norm difference after pass `n` is at most `1e-7`, the difference
before every earlier test of the loop condition (the initial `10` and the differences of
passes `1, …, n-1`) is above `1e-7`, and the returned value function is the new value function
of pass `n`.  Conversely, if pass `n` is the first whose difference is at most `1e-7`, the
loop returns the state after pass `n` as soon as it is allowed `n` passes; and it does not
return while every difference so far is above `1e-7`. -/
theorem mainIteration_stopping_rule (c : Params α) (htol : c.tolerance = 0.0000001) :
    (∀ fuel s', mainIteration c fuel initialState = some s' →
      ∃ n, 1 ≤ n ∧ n ≤ fuel ∧ s' = (iterationBody c)^[n] initialState
        ∧ s'.maxDifference ≤ 0.0000001
        ∧ (∀ m, m < n → 0.0000001 < ((iterationBody c)^[m] initialState).maxDifference)
        ∧ ∀ k p, k < c.nGridCapital → p < c.nGridProductivity →
            s'.mValueFunction k p = s'.mValueFunctionNew k p)
    ∧ (∀ n, ((iterationBody c)^[n] initialState).maxDifference ≤ 0.0000001 →
        (∀ m, m < n → 0.0000001 < ((iterationBody c)^[m] initialState).maxDifference) →
        ∀ fuel, n ≤ fuel →
          mainIteration c fuel initialState = some ((iterationBody c)^[n] initialState))
    ∧ (∀ fuel,
        (∀ m, m ≤ fuel → 0.0000001 < ((iterationBody c)^[m] initialState).maxDifference) →
        mainIteration c fuel initialState = none) := by
  refine ⟨?_, ?_, ?_⟩
  · intro fuel s' h
    obtain ⟨n, hn, hs, hle, hgt⟩ := (mainIteration_eq_some_iff c fuel initialState s').mp h
    rw [htol] at hle hgt
    have hpos : 1 ≤ n := by
      rcases Nat.eq_zero_or_pos n with h0 | h0
      · subst h0
        have : (initialState : State α).maxDifference ≤ 0.0000001 := hle
        simp only [initialState] at this
        norm_num at this
      · exact h0
    refine ⟨n, hpos, hn, hs, hs ▸ hle, hgt, ?_⟩
    intro k p hk hp
    obtain ⟨j, rfl⟩ : ∃ j, n = j + 1 := ⟨n - 1, by omega⟩
    rw [hs, Function.iterate_succ_apply']
    exact iterationBody_copy c _ k p hk hp
  · intro n hle hgt fuel hn
    exact (mainIteration_eq_some_iff c fuel initialState _).mpr
      ⟨n, hn, rfl, htol ▸ hle, fun m hm => htol ▸ hgt m hm⟩
  · intro fuel h
    exact (mainIteration_eq_none_iff c fuel initialState).mpr (fun m hm => htol ▸ h m hm)

/-- Witness for C4 on the one-cell instance: the first pass has difference `0`, so the loop
returns the state after exactly one pass. -/
theorem mainIteration_stopping_rule_witness :
    tinyParams.tolerance = 0.0000001
    ∧ (iterationBody tinyParams initialState).maxDifference = 0
    ∧ mainIteration tinyParams 1 initialState
        = some ((iterationBody tinyParams)^[1] initialState) := by
  have hd : (iterationBody tinyParams initialState).maxDifference = 0 := by
    norm_num [iterationBody, convergenceCheck, maximizationStep, maximizationRow, searchCell,
      innerSearchFrom, acceptCandidate, valueProvisional, expectationStep, forLoop, diffCell,
      tinyParams, initialState, readTable, setCell]
  refine ⟨rfl, hd, (mainIteration_stopping_rule tinyParams rfl).2.1 1 ?_ ?_ 1 le_rfl⟩
  · rw [Function.iterate_one, hd]; norm_num
  · intro m hm
    obtain rfl : m = 0 := by omega
    norm_num [initialState]

/-- C6 (policy monotonicity).  For the program as shipped, over the reals with the real
power and logarithm, started from the zero matrices: after every number `n` of passes of the
main loop, and hence in whatever state the loop returns, `mPolicyFunction[k1][p] ≤
mPolicyFunction[k2][p]` for every productivity index `p < 5` and capital indices
`k1 ≤ k2 < 17820`. -/
theorem policy_monotone (p k1 k2 : Nat) (hp : p < nGridProductivity) (h12 : k1 ≤ k2)
    (hk2 : k2 < nGridCapital) :
    (∀ n, ((iterationBody (shipped Real.rpow Real.log))^[n] initialState).mPolicyFunction k1 p
        ≤ ((iterationBody (shipped Real.rpow Real.log))^[n] initialState).mPolicyFunction k2 p)
    ∧ (∀ fuel s', mainIteration (shipped Real.rpow Real.log) fuel initialState = some s' →
        s'.mPolicyFunction k1 p ≤ s'.mPolicyFunction k2 p) := by
  have key : ∀ n,
      ((iterationBody (shipped Real.rpow Real.log))^[n] initialState).mPolicyFunction k1 p
        ≤ ((iterationBody (shipped Real.rpow Real.log))^[n] initialState).mPolicyFunction k2 p :=
    fun n => (iterate_invariant shipped_calibrated n).2 p k1 k2 hp h12 hk2
  refine ⟨key, ?_⟩
  intro fuel s' h
  obtain ⟨n, -, hs, -⟩ := (mainIteration_eq_some_iff _ fuel initialState s').mp h
  rw [hs]
  exact key n

/-- Witness for C6: productivity index `2` and the capital indices `999 ≤ 1000`, after three
passes. -/
theorem policy_monotone_witness :
    (2 < nGridProductivity ∧ 999 ≤ 1000 ∧ 1000 < nGridCapital)
    ∧ ((iterationBody (shipped Real.rpow Real.log))^[3] initialState).mPolicyFunction 999 2
        ≤ ((iterationBody (shipped Real.rpow Real.log))^[3] initialState).mPolicyFunction 1000 2 :=
  ⟨⟨by decide, by decide, by decide⟩,
    (policy_monotone 2 999 1000 (by decide) (by decide) (by decide)).1 3⟩

/-- C7 (capital grid).  Whatever `pow` returns for the steady-state capital `k*`, the grid
has exactly `17820` entries, entry `i` is `0.5*k* + 0.00001*i` for every `i < 17820`, the
grid is strictly increasing, its first entry is `0.5*k*` and its last entry is
`0.5*k* + 0.00001*(17820 - 1)`. -/
theorem vGridCapital_spec (pow : α → α → α) :
    nGridCapital = 17820
    ∧ (vGridCapital pow).size = nGridCapital
    ∧ (∀ i, i < nGridCapital →
        (vGridCapital pow).getD i 0 = 0.5 * capitalSteadyState pow + 0.00001 * (i : α))
    ∧ (∀ i j, i < j → j < nGridCapital →
        (vGridCapital pow).getD i 0 < (vGridCapital pow).getD j 0)
    ∧ (vGridCapital pow).getD 0 0 = 0.5 * capitalSteadyState pow
    ∧ (vGridCapital pow).getD (nGridCapital - 1) 0
        = 0.5 * capitalSteadyState pow + 0.00001 * (((nGridCapital - 1 : Nat) : α)) := by
  have hget := gridLoop_getD (capitalSteadyState pow) nGridCapital
  refine ⟨rfl, gridLoop_size _ _, hget, ?_, ?_, ?_⟩
  · intro i j hij hj
    show (gridLoop (capitalSteadyState pow) nGridCapital).getD i 0
      < (gridLoop (capitalSteadyState pow) nGridCapital).getD j 0
    rw [hget i (by omega), hget j hj]
    have hc : (i : α) < (j : α) := Nat.cast_lt.mpr hij
    have hstep : (0 : α) < 0.00001 := by norm_num
    nlinarith
  · have := hget 0 (by decide)
    simpa using this
  · exact hget (nGridCapital - 1) (by decide)

/-- C8 (output table).  Over the reals with the real power, for every capital index
`k < 17820` and productivity index `p < 5`: `mOutput[k][p] = vProductivity[p] *
vGridCapital[k]^aalpha`, the grid value and the productivity value are strictly positive,
and so is `mOutput[k][p]`. -/
theorem mOutput_spec (k p : Nat) (hk : k < nGridCapital) (hp : p < nGridProductivity) :
    mOutput Real.rpow k p
        = (vProductivity (α := ℝ)).getD p 0
            * Real.rpow ((vGridCapital Real.rpow).getD k 0) aalpha
      ∧ 0 < (vGridCapital Real.rpow).getD k 0
      ∧ 0 < (vProductivity (α := ℝ)).getD p 0
      ∧ 0 < mOutput Real.rpow k p := by
  refine ⟨mOutput_eq Real.rpow k p hk hp, ?_, ?_, ?_⟩
  · linarith [(vGridCapital_bounds k hk).1]
  · linarith [(vProductivity_bounds (α := ℝ) p hp).1]
  · linarith [(mOutput_bounds k p hk hp).1]

/-- Witness for C8 at the cell `(999, 2)`, where the productivity value is `1`. -/
theorem mOutput_spec_witness :
    (999 < nGridCapital ∧ 2 < nGridProductivity)
    ∧ mOutput Real.rpow 999 2
        = 1.0000 * Real.rpow ((vGridCapital Real.rpow).getD 999 0) aalpha
    ∧ 0 < mOutput Real.rpow 999 2 := by
  have h := mOutput_spec 999 2 (by decide) (by decide)
  refine ⟨⟨by decide, by decide⟩, ?_, h.2.2.2⟩
  rw [h.1]
  simp [vProductivity]

/-- C9 (transition matrix), evaluated on the constants of lines 55-61 read as exact
decimals: every entry lies in `[0, 1]` and rows 0, 1, 3 and 4 sum to `1`, but row 2
(`0.0082 + 0.9837 + 0.0082`) sums to `1.0001`, not `1`. -/
theorem mTransition_row_sums :
    (∀ i j, i < 5 → j < 5 →
      (0 : ℚ) ≤ readTable mTransition i j ∧ readTable mTransition i j ≤ (1 : ℚ))
    ∧ transitionRowSum ℚ 0 = 1 ∧ transitionRowSum ℚ 1 = 1 ∧ transitionRowSum ℚ 3 = 1
    ∧ transitionRowSum ℚ 4 = 1
    ∧ transitionRowSum ℚ 2 = 1.0001 ∧ transitionRowSum ℚ 2 ≠ 1 := by
  refine ⟨fun i j hi hj => mTransition_entry_bounds i j hi hj, ?_, ?_, ?_, ?_, ?_, ?_⟩ <;>
    norm_num [transitionRowSum, mTransition]

/-- C10 (the logarithm is never fed a non-positive consumption).  For the program as
shipped, over the reals with the real power and any logarithm: for every capital index
`k < 17820`, productivity index `p < 5` and candidate index `j < 17820`, the consumption
`mOutput[k][p] - vGridCapital[j]` of lines 130-131 is strictly positive (it is at least
`0.012`), whatever the iteration. -/
theorem consumption_pos (log : ℝ → ℝ) (k p j : Nat)
    (hk : k < (shipped Real.rpow log).nGridCapital)
    (hp : p < (shipped Real.rpow log).nGridProductivity)
    (hj : j < (shipped Real.rpow log).nGridCapital) :
    0 < (shipped Real.rpow log).mOutput k p - (shipped Real.rpow log).vGridCapital j
      ∧ 0.012 ≤ (shipped Real.rpow log).mOutput k p - (shipped Real.rpow log).vGridCapital j
      ∧ ∀ s : State ℝ, valueProvisional (shipped Real.rpow log) s k p j
          = (1 - bbeta) * log ((shipped Real.rpow log).mOutput k p
              - (shipped Real.rpow log).vGridCapital j)
            + bbeta * s.expectedValueFunction j p := by
  rw [shipped_nGridCapital] at hk hj
  rw [shipped_nGridProductivity] at hp
  have h := (consumption_bounds k p j hk hp hj).1
  rw [shipped_mOutput, shipped_vGridCapital]
  refine ⟨by linarith, h, fun s => ?_⟩
  simp only [valueProvisional, shipped_mOutput, shipped_vGridCapital, shipped_log,
    shipped_bbeta]

/-- Witness for C10: the cell with the least output, `(0, 0)`, against the largest
candidate, `17819`. -/
theorem consumption_pos_witness :
    (0 < (shipped Real.rpow Real.log).nGridCapital
      ∧ 0 < (shipped Real.rpow Real.log).nGridProductivity
      ∧ 17819 < (shipped Real.rpow Real.log).nGridCapital)
    ∧ 0 < (shipped Real.rpow Real.log).mOutput 0 0
        - (shipped Real.rpow Real.log).vGridCapital 17819 :=
  ⟨⟨by decide, by decide, by decide⟩,
    (consumption_pos Real.log 0 0 17819 (by decide) (by decide) (by decide)).1⟩

/-- C11 (unwritten-cell carry-over).  In any state in which the candidate at the cursor does
not exceed the sentinel `-100000`, the search of cell `(k, p)` changes nothing but the scalars
`valueHighSoFar` and `capitalChoice`: both matrices and the cursor are as before.  Hence, for
a pass of the main loop started in any state `S`: if the first candidate examined for the
cell `(k, p)`, in the state in which that pass enters the cell, does not exceed `-100000`,
then after the pass `mValueFunctionNew[k][p]` and `mPolicyFunction[k][p]` are exactly what
they were in `S`, that is, at the end of the previous pass. -/
theorem stale_cell_carry_over (c : Params α) (S : State α) (p k : Nat)
    (hk : k < c.nGridCapital) (hp : p < c.nGridProductivity)
    (h0 : valueProvisional c (cellEntry c (expectationStep c S) p k) k p
        (cellEntry c (expectationStep c S) p k).gridCapitalNextPeriod ≤ -100000) :
    (∀ t : State α, valueProvisional c t k p t.gridCapitalNextPeriod ≤ -100000 →
        searchCell c p k t
          = { t with valueHighSoFar := -100000, capitalChoice := c.vGridCapital 0 })
    ∧ (searchCell c p k (cellEntry c (expectationStep c S) p k)).gridCapitalNextPeriod
        = (cellEntry c (expectationStep c S) p k).gridCapitalNextPeriod
    ∧ (iterationBody c S).mValueFunctionNew k p = S.mValueFunctionNew k p
    ∧ (iterationBody c S).mPolicyFunction k p = S.mPolicyFunction k p := by
  have hstop := searchCell_stop c p k _ h0
  obtain ⟨-, -, f3, f4⟩ := cellEntry_frame c (expectationStep c S) p k
  obtain ⟨m1, m2⟩ := maximizationStep_cell c (expectationStep c S) p k hk hp
  obtain ⟨i1, i2⟩ := iterationBody_cells c S
  obtain ⟨x1, x2⟩ := expectationStep_cells c S
  refine ⟨fun t ht => searchCell_stop c p k t ht, by rw [hstop], ?_, ?_⟩
  · rw [i1, m1, hstop]
    show (cellEntry c (expectationStep c S) p k).mValueFunctionNew k p = _
    rw [f3, x1]
  · rw [i2, m2, hstop]
    show (cellEntry c (expectationStep c S) p k).mPolicyFunction k p = _
    rw [f4, x2]

/-- Witness for C11 on the three-point instance: with the value function at `-10000000` the
first candidate of cell `(0, 0)` is worth `9/2 - 5000000`, and the cell keeps its entries `1`
and `7`. -/
theorem stale_cell_carry_over_witness :
    (0 < demoParams.nGridCapital ∧ 0 < demoParams.nGridProductivity
      ∧ valueProvisional demoParams (cellEntry demoParams (expectationStep demoParams staleState) 0 0)
          0 0 (cellEntry demoParams (expectationStep demoParams staleState) 0 0).gridCapitalNextPeriod
        ≤ -100000)
    ∧ (iterationBody demoParams staleState).mValueFunctionNew 0 0 = 1
    ∧ (iterationBody demoParams staleState).mPolicyFunction 0 0 = 7 := by
  have h0 : valueProvisional demoParams
      (cellEntry demoParams (expectationStep demoParams staleState) 0 0) 0 0
      (cellEntry demoParams (expectationStep demoParams staleState) 0 0).gridCapitalNextPeriod
      ≤ -100000 := by
    norm_num [valueProvisional, cellEntry, rowPrefix, stepPrefix, forLoop, expectationStep,
      demoParams, staleState, readTable, setCell]
  have h := stale_cell_carry_over demoParams staleState 0 0 (by decide) (by decide) h0
  refine ⟨⟨by decide, by decide, h0⟩, ?_, ?_⟩
  · rw [h.2.2.1]; norm_num [staleState, readTable]
  · rw [h.2.2.2]; rfl


/-- C12, the claim as stated fails: the elasticity constant of line 47 is the decimal
`0.33333333333`, which is not `1/3`, read over the rationals or over the reals. -/
theorem aalpha_ne_one_third : (aalpha : ℚ) ≠ 1 / 3 ∧ (aalpha : ℝ) ≠ 1 / 3 := by
  constructor <;> norm_num [aalpha]

/-- C12 (calibration and steady state), amended.  The capital elasticity is the decimal
`aalpha = 0.33333333333`, which lies `1/(3*10^11)` below `1/3`, and the discount factor is
`bbeta = 0.95`.  With the real power, the steady-state values of lines 67-69 are
`capitalSteadyState = (aalpha*bbeta)^(1/(1-aalpha))`, `outputSteadyState =
capitalSteadyState^aalpha` and `consumptionSteadyState = outputSteadyState -
capitalSteadyState`. -/
theorem calibration_steady_state :
    (aalpha : ℝ) = 0.33333333333
    ∧ (1 / 3 - aalpha : ℝ) = 1 / (3 * 10 ^ 11)
    ∧ (bbeta : ℝ) = 0.95
    ∧ capitalSteadyState Real.rpow = ((aalpha * bbeta : ℝ)) ^ ((1 / (1 - aalpha) : ℝ))
    ∧ outputSteadyState Real.rpow = (capitalSteadyState Real.rpow) ^ (aalpha : ℝ)
    ∧ consumptionSteadyState Real.rpow
        = outputSteadyState Real.rpow - capitalSteadyState Real.rpow := by
  refine ⟨rfl, ?_, rfl, ?_, ?_, rfl⟩
  · norm_num [aalpha]
  · simp only [capitalSteadyState, Real.rpow_eq_pow]
  · simp only [outputSteadyState, Real.rpow_eq_pow]

/-- C13 (linear work per productivity row).  For any read-only data and any state in which
row `p` of the maximization step is entered, the number of candidate evaluations of the row,
summed over all `N_k` capital indices, is at most `3*N_k - 1` (and so less than `3*N_k` when
the grid is not empty). -/
theorem rowEvaluations_le (c : Params α) (p : Nat) (s : State α) :
    rowEvaluations c p s ≤ 3 * c.nGridCapital - 1
      ∧ (0 < c.nGridCapital → rowEvaluations c p s + 1 ≤ 3 * c.nGridCapital) := by
  obtain ⟨h1, h2⟩ := rowPrefix_cost c p s c.nGridCapital
  unfold rowEvaluations
  constructor
  · omega
  · intro hN; omega

/-- C14 (search-cursor invariant).  For a non-empty grid and any state in which row `p` of
the maximization step is entered: the cursor `gridCapitalNextPeriod` is `0` on entry to
capital index `0`; on entry to every capital index it is at most `N_k - 1`; it is
non-decreasing in the capital index; the state entering index `k + 1` is the one the search
of index `k` leaves (no reset in between); and the cursor entering `k + 1` is the cursor
entering `k` when the first candidate of `k` does not beat the sentinel, and otherwise the
last candidate `m` accepted for `k` (values rise strictly from the cursor to `m`, and `m` is
the last grid point or the value at `m + 1` does not exceed that at `m`). -/
theorem cursor_invariant (c : Params α) (p : Nat) (s : State α) (hN : 0 < c.nGridCapital) :
    (rowPrefix c p s 0).gridCapitalNextPeriod = 0
    ∧ (∀ k, (rowPrefix c p s k).gridCapitalNextPeriod ≤ c.nGridCapital - 1)
    ∧ (∀ k1 k2, k1 ≤ k2 →
        (rowPrefix c p s k1).gridCapitalNextPeriod ≤ (rowPrefix c p s k2).gridCapitalNextPeriod)
    ∧ (∀ k, rowPrefix c p s (k + 1) = searchCell c p k (rowPrefix c p s k))
    ∧ maximizationRow c p s = rowPrefix c p s c.nGridCapital
    ∧ (∀ k,
        (valueProvisional c (rowPrefix c p s k) k p (rowPrefix c p s k).gridCapitalNextPeriod
            ≤ -100000
          ∧ (rowPrefix c p s (k + 1)).gridCapitalNextPeriod
            = (rowPrefix c p s k).gridCapitalNextPeriod)
        ∨ (-100000
            < valueProvisional c (rowPrefix c p s k) k p
                (rowPrefix c p s k).gridCapitalNextPeriod
          ∧ ∃ m, (rowPrefix c p s k).gridCapitalNextPeriod ≤ m ∧ m < c.nGridCapital
            ∧ (∀ i, (rowPrefix c p s k).gridCapitalNextPeriod ≤ i → i < m →
                valueProvisional c (rowPrefix c p s k) k p i
                  < valueProvisional c (rowPrefix c p s k) k p (i + 1))
            ∧ (m + 1 < c.nGridCapital →
                valueProvisional c (rowPrefix c p s k) k p (m + 1)
                  ≤ valueProvisional c (rowPrefix c p s k) k p m)
            ∧ (rowPrefix c p s (k + 1)).gridCapitalNextPeriod = m)) := by
  have hstep : ∀ k, rowPrefix c p s (k + 1) = searchCell c p k (rowPrefix c p s k) :=
    fun _ => rfl
  have hle : ∀ k, (rowPrefix c p s k).gridCapitalNextPeriod ≤ c.nGridCapital - 1 :=
    fun k => (rowPrefix_cost c p s k).1
  refine ⟨rfl, hle, ?_, hstep, rfl, ?_⟩
  · intro k1 k2 h12
    induction k2 with
    | zero =>
      obtain rfl : k1 = 0 := by omega
      exact le_rfl
    | succ j ih =>
      rcases Nat.eq_or_lt_of_le h12 with hEq | hLt
      · rw [hEq]
      · refine le_trans (ih (by omega)) ?_
        rw [hstep j]
        exact (searchCell_cost c p j (rowPrefix c p s j)).1
  · intro k
    by_cases h0 : -100000
        < valueProvisional c (rowPrefix c p s k) k p (rowPrefix c p s k).gridCapitalNextPeriod
    · right
      have hcur : (rowPrefix c p s k).gridCapitalNextPeriod < c.nGridCapital := by
        have := hle k
        omega
      obtain ⟨m, h1, h2, h3, h4, h5, -⟩ := searchCell_trace c p k (rowPrefix c p s k) hcur h0
      refine ⟨h0, m, h1, h2, h4, h5, ?_⟩
      rw [hstep k, h3]
    · left
      refine ⟨not_lt.mp h0, ?_⟩
      rw [hstep k, searchCell_stop c p k _ (not_lt.mp h0)]

/-- Witness for C14 on the three-point instance, row `0` entered in `demoState`: the cursor
is `0` on entry to index `0` and `1` on entry to index `1`, the last candidate accepted for
index `0`. -/
theorem cursor_invariant_witness :
    0 < demoParams.nGridCapital
    ∧ (rowPrefix demoParams 0 demoState 0).gridCapitalNextPeriod = 0
    ∧ (rowPrefix demoParams 0 demoState 1).gridCapitalNextPeriod = 1
    ∧ (∀ k, (rowPrefix demoParams 0 demoState k).gridCapitalNextPeriod
        ≤ demoParams.nGridCapital - 1) := by
  have h := cursor_invariant demoParams 0 demoState (by decide)
  refine ⟨by decide, h.1, ?_, h.2.1⟩
  norm_num [rowPrefix, forLoop, searchCell, innerSearchFrom, acceptCandidate, valueProvisional,
    demoParams, demoState, readTable, setCell]

/-- C15 (what the inner search writes, with no assumption on the objective).  For every
state whose cursor `s` is on the grid, every `p` and `k`, let `f j = (1-bbeta) *
log(mOutput[k][p] - vGridCapital[j]) + bbeta * expectedValueFunction[j][p]`.  If
`f s > -100000`, there is an index `j*` with `s ≤ j* < N_k` such that `f s < f (s+1) < … <
f j*`, either `j* = N_k - 1` or `f (j*+1) ≤ f j*`, and `j*` is the largest index with such a
rising chain; the search ends with the cursor at `j*`, writes `f j*` to
`mValueFunctionNew[k][p]` and `vGridCapital[j*]` to `mPolicyFunction[k][p]`, and examines
exactly the candidates from `s` to `j* + 1` that are on the grid, so none beyond `j* + 1`. -/
theorem searchCell_spec (c : Params α) (s : State α) (p k : Nat) (f : Nat → α)
    (hf : ∀ j, f j = (1 - c.bbeta) * c.log (c.mOutput k p - c.vGridCapital j)
      + c.bbeta * s.expectedValueFunction j p)
    (hs : s.gridCapitalNextPeriod < c.nGridCapital)
    (h0 : -100000 < f s.gridCapitalNextPeriod) :
    ∃ m, s.gridCapitalNextPeriod ≤ m ∧ m < c.nGridCapital
      ∧ (∀ i, s.gridCapitalNextPeriod ≤ i → i < m → f i < f (i + 1))
      ∧ (m = c.nGridCapital - 1 ∨ f (m + 1) ≤ f m)
      ∧ (∀ j, s.gridCapitalNextPeriod ≤ j → j < c.nGridCapital →
          (∀ i, s.gridCapitalNextPeriod ≤ i → i < j → f i < f (i + 1)) → j ≤ m)
      ∧ (searchCell c p k s).gridCapitalNextPeriod = m
      ∧ (searchCell c p k s).mValueFunctionNew k p = f m
      ∧ (searchCell c p k s).mPolicyFunction k p = c.vGridCapital m
      ∧ (∀ i, i ∈ searchCellExamined c p k s ↔
          s.gridCapitalNextPeriod ≤ i ∧ i ≤ m + 1 ∧ i < c.nGridCapital) := by
  have hfv : ∀ j, valueProvisional c s k p j = f j := by
    intro j
    rw [hf j]
    rfl
  obtain ⟨m, h1, h2, h3, h4, h5, h6⟩ :=
    searchCell_trace c p k s hs (by rw [hfv]; exact h0)
  simp only [hfv] at h4 h5
  refine ⟨m, h1, h2, h4, ?_, ?_, ?_, ?_, ?_, ?_⟩
  · by_cases hlast : m + 1 < c.nGridCapital
    · exact Or.inr (h5 hlast)
    · exact Or.inl (by omega)
  · intro j hj1 hj2 hchain
    by_contra hc
    have hmj : m < j := not_le.mp hc
    have hup := hchain m h1 hmj
    have hdown := h5 (by omega)
    exact absurd hup (not_lt.mpr hdown)
  · rw [h3]
  · rw [h3, ← hfv m]; exact setCell_same _ _ _ _
  · rw [h3]; exact setCell_same _ _ _ _
  · intro i
    rw [h6, List.mem_range'_1]
    omega

/-- Witness for C15 on the three-point instance entered in `demoState` (cursor `0`).  For
the cell `(0, 1)` the formula gives `f = 5, 5, 11/2`: the chain stops at `j* = 0`, the cell
receives `f 0 = 5` and the grid value `0`, the candidates `0` and `1` are examined and the
candidate `2` is not, although its value `11/2` is larger. -/
theorem searchCell_spec_witness :
    ((∀ j : Nat, (fun j : Nat => (1 - (1 / 2 : ℚ)) * (10 + 0 + 1 - (j : ℚ) - 1)
          + 1 / 2 * readTable [[0, 0], [4, 1], [2, 3]] j 1) j
        = (1 - demoParams.bbeta) * demoParams.log (demoParams.mOutput 0 1
            - demoParams.vGridCapital j)
          + demoParams.bbeta * demoState.expectedValueFunction j 1)
      ∧ demoState.gridCapitalNextPeriod < demoParams.nGridCapital
      ∧ -100000 < (1 - (1 / 2 : ℚ)) * (10 + 0 + 1 - ((demoState.gridCapitalNextPeriod : Nat) : ℚ) - 1)
          + 1 / 2 * readTable [[0, 0], [4, 1], [2, 3]] demoState.gridCapitalNextPeriod 1)
    ∧ (searchCell demoParams 1 0 demoState).gridCapitalNextPeriod = 0
    ∧ (searchCell demoParams 1 0 demoState).mValueFunctionNew 0 1 = 5
    ∧ (searchCell demoParams 1 0 demoState).mPolicyFunction 0 1 = 0
    ∧ 0 ∈ searchCellExamined demoParams 1 0 demoState
    ∧ 1 ∈ searchCellExamined demoParams 1 0 demoState
    ∧ 2 ∉ searchCellExamined demoParams 1 0 demoState := by
  have hf : ∀ j : Nat, (fun j : Nat => (1 - (1 / 2 : ℚ)) * (10 + 0 + 1 - (j : ℚ) - 1)
        + 1 / 2 * readTable [[0, 0], [4, 1], [2, 3]] j 1) j
      = (1 - demoParams.bbeta) * demoParams.log (demoParams.mOutput 0 1
          - demoParams.vGridCapital j)
        + demoParams.bbeta * demoState.expectedValueFunction j 1 := by
    intro j
    norm_num [demoParams, demoState]
  have hs : demoState.gridCapitalNextPeriod < demoParams.nGridCapital := by decide
  have h0 : -100000 < (1 - (1 / 2 : ℚ))
        * (10 + 0 + 1 - ((demoState.gridCapitalNextPeriod : Nat) : ℚ) - 1)
      + 1 / 2 * readTable [[0, 0], [4, 1], [2, 3]] demoState.gridCapitalNextPeriod 1 := by
    norm_num [demoState, readTable]
  obtain ⟨m, -, a2, a3, a4, -, a6, a7, a8, a9⟩ :=
    searchCell_spec demoParams demoState 1 0 _ hf hs h0
  have hm : m = 0 := by
    have hN : demoParams.nGridCapital = 3 := rfl
    have hc : demoState.gridCapitalNextPeriod = 0 := rfl
    rw [hN] at a2
    rw [hc] at a3
    interval_cases m
    · rfl
    · have := a3 0 le_rfl (by decide)
      norm_num [readTable] at this
    · have := a3 0 le_rfl (by decide)
      norm_num [readTable] at this
  subst hm
  refine ⟨⟨hf, hs, h0⟩, a6, ?_, ?_, ?_, ?_, ?_⟩
  · rw [a7]; norm_num [readTable]
  · rw [a8]; norm_num [demoParams]
  · exact (a9 0).mpr ⟨by decide, by decide, by decide⟩
  · exact (a9 1).mpr ⟨by decide, by decide, by decide⟩
  · intro h
    have := ((a9 2).mp h).2.1
    omega

/-- C16 (every cell is written in every pass under the shipped calibration).  For the program
as shipped, over the reals with the real power and logarithm, started from the zero matrices:
before every pass `n + 1` the value function lies in `[-100, 0]`; in that pass the first
candidate examined for every cell `(k, p)` has a value strictly above the sentinel `-100000`;
and after the pass `mValueFunctionNew[k][p]` is the value of a candidate `j` of this pass
(computed from this pass's expected value function) and `mPolicyFunction[k][p]` is
`vGridCapital[j]`, so no entry of an earlier pass survives. -/
theorem every_cell_written (n k p : Nat) (hk : k < nGridCapital)
    (hp : p < nGridProductivity) :
    (-100 ≤ ((iterationBody (shipped Real.rpow Real.log))^[n] initialState).mValueFunction k p
      ∧ ((iterationBody (shipped Real.rpow Real.log))^[n] initialState).mValueFunction k p ≤ 0)
    ∧ -100000 < valueProvisional (shipped Real.rpow Real.log)
        (cellEntry (shipped Real.rpow Real.log)
          (expectationStep (shipped Real.rpow Real.log)
            ((iterationBody (shipped Real.rpow Real.log))^[n] initialState)) p k) k p
        (cellEntry (shipped Real.rpow Real.log)
          (expectationStep (shipped Real.rpow Real.log)
            ((iterationBody (shipped Real.rpow Real.log))^[n] initialState)) p
          k).gridCapitalNextPeriod
    ∧ ∃ j, j < nGridCapital
      ∧ ((iterationBody (shipped Real.rpow Real.log))^[n + 1] initialState).mValueFunctionNew k p
        = valueProvisional (shipped Real.rpow Real.log)
            (expectationStep (shipped Real.rpow Real.log)
              ((iterationBody (shipped Real.rpow Real.log))^[n] initialState)) k p j
      ∧ ((iterationBody (shipped Real.rpow Real.log))^[n + 1] initialState).mPolicyFunction k p
        = (shipped Real.rpow Real.log).vGridCapital j := by
  have hV := (iterate_invariant shipped_calibrated n).1
  obtain ⟨h0, j, -, hj, hv, hpol⟩ := cell_written shipped_calibrated _ hV p k hk hp
  rw [Function.iterate_succ_apply']
  exact ⟨hV k p hk hp, h0, j, hj, hv, hpol⟩

/-- Witness for C16: the diagnostic cell `(999, 2)` in the fourth pass. -/
theorem every_cell_written_witness :
    (999 < nGridCapital ∧ 2 < nGridProductivity)
    ∧ -100000 < valueProvisional (shipped Real.rpow Real.log)
        (cellEntry (shipped Real.rpow Real.log)
          (expectationStep (shipped Real.rpow Real.log)
            ((iterationBody (shipped Real.rpow Real.log))^[3] initialState)) 2 999) 999 2
        (cellEntry (shipped Real.rpow Real.log)
          (expectationStep (shipped Real.rpow Real.log)
            ((iterationBody (shipped Real.rpow Real.log))^[3] initialState)) 2
          999).gridCapitalNextPeriod :=
  ⟨⟨by decide, by decide⟩, (every_cell_written 3 999 2 (by decide) (by decide)).2.1⟩

/-- C17 (first pass in closed form).  For the program as shipped, over the reals with the
real power and logarithm, started from the zero matrices: in the first pass the candidate
values of cell `(k, p)` are `(1 - bbeta) * log(mOutput[k][p] - vGridCapital[j])`; after the
pass `mPolicyFunction[k][p] = vGridCapital[0]` and `mValueFunctionNew[k][p] = (1 - bbeta) *
log(mOutput[k][p] - vGridCapital[0])`, which is the maximum of the candidate values over all
`17820` candidates; and the cursor is `0` on entry to every cell of the row and after its
last cell. -/
theorem first_pass_closed_form (k p : Nat) (hk : k < nGridCapital)
    (hp : p < nGridProductivity) :
    (∀ j, valueProvisional (shipped Real.rpow Real.log)
        (expectationStep (shipped Real.rpow Real.log) initialState) k p j
        = (1 - bbeta) * Real.log (mOutput Real.rpow k p - (vGridCapital Real.rpow).getD j 0))
    ∧ (iterationBody (shipped Real.rpow Real.log) initialState).mPolicyFunction k p
        = (vGridCapital Real.rpow).getD 0 0
    ∧ (iterationBody (shipped Real.rpow Real.log) initialState).mValueFunctionNew k p
        = (1 - bbeta) * Real.log (mOutput Real.rpow k p - (vGridCapital Real.rpow).getD 0 0)
    ∧ (iterationBody (shipped Real.rpow Real.log) initialState).mValueFunctionNew k p
        = (Finset.range nGridCapital).sup' (Finset.nonempty_range_iff.mpr (by decide))
            (fun j => valueProvisional (shipped Real.rpow Real.log)
              (expectationStep (shipped Real.rpow Real.log) initialState) k p j)
    ∧ (∀ n, n ≤ nGridCapital →
        (cellEntry (shipped Real.rpow Real.log)
          (expectationStep (shipped Real.rpow Real.log) initialState) p
          n).gridCapitalNextPeriod = 0) := by
  have hform : ∀ j, valueProvisional (shipped Real.rpow Real.log)
      (expectationStep (shipped Real.rpow Real.log) initialState) k p j
      = (1 - bbeta) * Real.log (mOutput Real.rpow k p - (vGridCapital Real.rpow).getD j 0) := by
    intro j
    rw [valueProvisional_initial, shipped_bbeta, shipped_log, shipped_mOutput,
      shipped_vGridCapital]
  have h1N : 1 < nGridCapital := by decide
  have hstay := maximizationStep_stay (shipped Real.rpow Real.log)
    (expectationStep (shipped Real.rpow Real.log) initialState)
    (show 0 < nGridCapital by decide)
    (fun a b ha hb => (first_pass_values a b 0 ha hb (by decide)).1)
    (fun a b ha hb => (first_pass_values a b 1 ha hb h1N).2) p k hp
  obtain ⟨hcur, hcell⟩ := hstay
  obtain ⟨hv, hpol⟩ := hcell hk
  obtain ⟨i1, i2⟩ := iterationBody_cells (shipped Real.rpow Real.log) initialState
  have hval : (iterationBody (shipped Real.rpow Real.log) initialState).mValueFunctionNew k p
      = valueProvisional (shipped Real.rpow Real.log)
          (expectationStep (shipped Real.rpow Real.log) initialState) k p 0 := by
    rw [i1]; exact hv
  refine ⟨hform, ?_, ?_, ?_, ?_⟩
  · rw [i2, hpol, shipped_vGridCapital]
  · rw [hval, hform 0]
  · rw [hval]
    apply le_antisymm
    · exact Finset.le_sup' (fun j => valueProvisional (shipped Real.rpow Real.log)
        (expectationStep (shipped Real.rpow Real.log) initialState) k p j)
        (Finset.mem_range.mpr (show 0 < nGridCapital by decide))
    · apply Finset.sup'_le
      intro j hj
      exact (first_pass_values k p j hk hp (Finset.mem_range.mp hj)).2
  · intro n hn
    exact (maximizationStep_stay (shipped Real.rpow Real.log)
      (expectationStep (shipped Real.rpow Real.log) initialState)
      (show 0 < nGridCapital by decide)
      (fun a b ha hb => (first_pass_values a b 0 ha hb (by decide)).1)
      (fun a b ha hb => (first_pass_values a b 1 ha hb h1N).2) p n hp).1 hn

/-- Witness for C17 at the diagnostic cell `(999, 2)`. -/
theorem first_pass_closed_form_witness :
    (999 < nGridCapital ∧ 2 < nGridProductivity)
    ∧ (iterationBody (shipped Real.rpow Real.log) initialState).mPolicyFunction 999 2
        = (vGridCapital Real.rpow).getD 0 0
    ∧ (iterationBody (shipped Real.rpow Real.log) initialState).mValueFunctionNew 999 2
        = (1 - bbeta) * Real.log (mOutput Real.rpow 999 2 - (vGridCapital Real.rpow).getD 0 0) :=
  ⟨⟨by decide, by decide⟩,
    (first_pass_closed_form 999 2 (by decide) (by decide)).2.1,
    (first_pass_closed_form 999 2 (by decide) (by decide)).2.2.1⟩


end Claims

end RBC
